import Mathlib

/-!
Verification of the loading/caching/execution orchestration engine of
`vue3-sfc-loader` (`src/tools.ts`), as a shallow embedding in Lean 4.

The embedding covers:
* `hash` (tools.ts lines 94-97): the cache-key digest over an ordered list of
  strings.  The MD5 digest itself is an external collaborator and is passed as
  a function parameter `digest`; the source combines the parts by appending
  each part (`val ? val : ""`) into one digest stream and truncates the hex
  result to 8 characters.
* `withCache` (lines 106-128): the compilation-cache helper.  `JSON.stringify`
  / `JSON.parse` are external and passed as `stringify` / `parse`; the
  `CacheStore` is modelled as an association list; the value factory is
  modelled by the value it produces together with the boolean "did it call
  `preventCache`".
* `defaultHandleModule` (lines 360-369) and the dispatch sequence inlined in
  `loadModuleInternal` (lines 275-284).  `createSFCModule` (not part of the
  analysed sources) and the recursive `createJSModule` are cut at the call
  boundary and modelled as collaborator fields of `Options`.
* the `require` closure of `createModule` (lines 304-311).
* `loadModuleInternal` (lines 245-291) together with a cooperative scheduler:
  each load request is a task, `loadStep` runs one task until its next
  suspension point (`await`), exactly mirroring the synchronous segments of
  the source, and a schedule is an arbitrary list of task indices.  Ghost
  counters record how often the resource is resolved (`getResource`), fetched
  (`getContent`), and dispatched, the order in which tasks settle, and every
  log invocation performed by the loader.
-/

/-- A JavaScript value as far as the loader core is concerned: opaque, and
`null` is distinct from `undefined` (the latter is modelled by `Option.none`
wherever the source checks `=== undefined`). -/
inductive JSVal
  | null
  | num (n : Nat)
  | str (s : String)
deriving DecidableEq

/-- The `content` field returned by `getContent()`: either a string or some
non-string value (carrying a printable tag), since the source checks
`typeof content !== 'string'`. -/
inductive Content
  | str (s : String)
  | nonStr (tag : String)
deriving DecidableEq

/-- The errors thrown by the modelled code paths of `tools.ts`. -/
inductive Err
  | invalidContent (path tag : String)
  | unsupported (extname path : String)
  | notFound (id : String)
deriving DecidableEq

/-- The message template of each error, as written in the source
(template literals at lines 272, 284 and 310). -/
def Err.message : Err → String
  | .invalidContent path tag => "Invalid module content (" ++ path ++ "): " ++ tag
  | .unsupported extname path => "Unable to handle " ++ extname ++ " files (" ++ path ++ ")"
  | .notFound id => id ++ " not found in moduleCache"

/-- A path context `{ refPath, relPath }` (from `types.ts`, used at lines
245, 306, 315). -/
structure PathContext where
  refPath : String
  relPath : String
deriving DecidableEq

/-- The resource descriptor returned by `options.getResource(pathCx, options)`
(line 249): the module identity `id`, the resolved `path`, and the result the
deferred `getContent()` will produce (`{ content, extname }`, line 269). -/
structure Resource where
  id : String
  path : String
  content : Content
  extname : String
deriving DecidableEq

instance {ε α : Type} [DecidableEq ε] [DecidableEq α] : DecidableEq (Except ε α) := fun a b =>
  match a, b with
  | .error x, .error y =>
    if h : x = y then .isTrue (by rw [h])
    else .isFalse (fun hc => h (by injection hc))
  | .ok x, .ok y =>
    if h : x = y then .isTrue (by rw [h])
    else .isFalse (fun hc => h (by injection hc))
  | .error _, .ok _ => .isFalse (fun hc => Except.noConfusion hc)
  | .ok _, .error _ => .isFalse (fun hc => Except.noConfusion hc)

/-- A module-cache slot.  `pending result` models a `Loading` instance whose
promise is unsettled (`result = none`) or settled (`result = some r`; the
source never replaces the `Loading` object on failure, so a rejected promise
inside the retained `Loading` is exactly `pending (some (.error e))`).
`done v` models a slot overwritten with the module value
(`moduleCache[id] = module`, lines 266 and 286). -/
inductive Entry
  | pending (result : Option (Except Err JSVal))
  | done (v : JSVal)
deriving DecidableEq

/-- The `options` fields consumed by the modelled code.  `loadModule` and
`handleModule` are the optional caller-supplied callbacks (lines 262, 277);
`createSFCModule` and `createJSModule` are the handlers the built-in dispatch
delegates to (lines 363-365), cut at the call boundary. -/
structure Options where
  getResource : PathContext → Resource
  loadModule : Option (String → Option JSVal)
  handleModule : Option (String → String → String → Option JSVal)
  createSFCModule : String → String → JSVal
  createJSModule : String → Bool → String → JSVal

/-- `hash(...valueList)` (lines 94-97): append every part (`val ? val : ""`;
for strings, falsy means the empty string) into a single digest stream, take
the hex digest, and keep the first 8 characters (`.slice(0, 8)`). -/
def hash (digest : String → String) (valueList : List String) : String :=
  (digest (valueList.foldl
    (fun hashInstance val => hashInstance ++ (if val = "" then "" else val)) "")).take 8

/-- The key/value `CacheStore` behind the compilation cache, modelled as an
association list with `get`/`set`. -/
def storeGet (st : List (String × String)) (k : String) : Option String :=
  (st.find? (fun e => e.1 == k)).map (fun e => e.2)

/-- `cacheInstance.set(key, value)`: last write wins for a given key. -/
def storeSet (st : List (String × String)) (k v : String) : List (String × String) :=
  (k, v) :: st.filter (fun e => !(e.1 == k))

/-- Result of one `withCache` call: the returned value, the cache store after
the call (`none` when no store is configured), and whether the value factory
was invoked. -/
structure WithCacheResult (V : Type) where
  value : V
  store : Option (List (String × String))
  invoked : Bool
deriving DecidableEq

/-- `withCache(cacheInstance, key, valueFactory)` (lines 106-128).  The
factory is modelled by the pair `(value it produces, did it call
preventCache)`.  A stored string counts as a hit only if it is truthy
(`if (valueStr)`), mirroring the source; on a miss the factory runs and its
result is stored unless `preventCache` was called. -/
def withCache {V : Type} (digest : String → String)
    (stringify : V → String) (parse : String → V)
    (cacheInstance : Option (List (String × String)))
    (key : List String) (valueFactory : V × Bool) : WithCacheResult V :=
  match cacheInstance with
  | none => ⟨valueFactory.1, none, true⟩
  | some st =>
    let hashedKey := hash digest key
    let miss : WithCacheResult V :=
      ⟨valueFactory.1,
       some (if valueFactory.2 then st else storeSet st hashedKey (stringify valueFactory.1)),
       true⟩
    match storeGet st hashedKey with
    | some valueStr => if valueStr ≠ "" then ⟨parse valueStr, some st, false⟩ else miss
    | none => miss

/-- `defaultHandleModule(extname, source, path, options)` (lines 360-369):
built-in dispatch on the type tag; any other tag yields `undefined`
(modelled as `none`). -/
def defaultHandleModule (o : Options) (extname source path : String) : Option JSVal :=
  if extname = ".vue" then some (o.createSFCModule source path)
  else if extname = ".js" then some (o.createJSModule source false path)
  else if extname = ".mjs" then some (o.createJSModule source true path)
  else none

/-- The dispatch sequence inlined in `loadModuleInternal` (lines 275-284):
try the caller-supplied `handleModule` first; on `undefined` fall through to
`defaultHandleModule`; if still `undefined`, throw the unsupported-type
`TypeError`. -/
def dispatchModule (o : Options) (extname content path : String) : Except Err JSVal :=
  let m1 : Option JSVal :=
    match o.handleModule with
    | some h => h extname content path
    | none => none
  let m2 : Option JSVal :=
    match m1 with
    | some v => some v
    | none => defaultHandleModule o extname content path
  match m2 with
  | some v => .ok v
  | none => .error (.unsupported extname path)

/-- The `require` closure built by `createModule` (lines 304-311): resolve the
relative reference to an identity and return the raw cache slot if the
identity has any entry (`if (id in moduleCache) return moduleCache[id]`),
otherwise throw "not found".  The returned slot is whatever is stored —
including a `Loading` placeholder. -/
def requireModule (o : Options) (moduleCache : String → Option Entry)
    (refPath relPath : String) : Except Err Entry :=
  let id := (o.getResource ⟨refPath, relPath⟩).id
  match moduleCache id with
  | some e => .ok e
  | none => .error (.notFound id)

/-!
The cooperative-scheduling machine for `loadModuleInternal` (lines 245-291).

Each concurrent call of `loadModuleInternal pathCx options` is a task.  A task
runs synchronously between `await` suspension points; `loadStep o s i` runs
task `i` from its current suspension point to the next one, which is exactly
the atomicity granted by single-threaded cooperative scheduling.  A schedule
is an arbitrary list of task indices; stepping a task that cannot progress
(or an absent index) leaves the state unchanged.
-/

/-- The continuation state of one `loadModuleInternal` call.
`start c`: the call has not yet run its synchronous prefix (lines 247-260).
`awaiting id`: suspended on `await (moduleCache[id] as Loading).promise`
(lines 254, 290) of a load body owned by another task.
`sLoadMod r`: the load body is suspended at `await loadModule(id, options)`
(line 264).
`sGetContent r`: suspended at `await getContent()` (line 269); the
`getContent()` call itself (starting the fetch) already happened.
`sHandle r content`: suspended at `await handleModule(...)` (line 278).
`sDefault r content`: suspended at `await defaultHandleModule(...)`
(line 281).
`finished id res`: the call returned `res` for identity `id`. -/
inductive TaskSt
  | idle
  | start (c : PathContext)
  | awaiting (id : String)
  | sLoadMod (r : Resource)
  | sGetContent (r : Resource)
  | sHandle (r : Resource) (content : String)
  | sDefault (r : Resource) (content : String)
  | finished (id : String) (res : Except Err JSVal)
deriving DecidableEq

/-- The shared state: the module cache plus ghost observables — per-identity
counters of `getResource` calls, `getContent` calls, caller-handler calls,
built-in-handler calls and `Loading` installations, the settle order of the
tasks, every log invocation the modelled code performs, and the task states. -/
structure MState where
  cache : String → Option Entry
  fetchCount : String → Nat
  resolveCount : String → Nat
  handleCount : String → Nat
  defaultCount : String → Nat
  pendingCount : String → Nat
  finishLog : List (Nat × Except Err JSVal)
  logCalls : List String
  tasks : Nat → TaskSt

/-- Pointwise increment of a per-identity counter. -/
def bump (f : String → Nat) (id : String) : String → Nat :=
  fun x => if x = id then f x + 1 else f x

/-- `moduleCache[id] = e`. -/
def cupd (c : String → Option Entry) (id : String) (e : Entry) : String → Option Entry :=
  fun x => if x = id then some e else c x

/-- Replace the state of task `i`. -/
def setTask (ts : Nat → TaskSt) (i : Nat) (t : TaskSt) : Nat → TaskSt :=
  fun j => if j = i then t else ts j

/-- A task settles with result `res` (without touching the cache): used when a
request returns a value it read from the cache or from an awaited promise. -/
def finishTask (s : MState) (i : Nat) (id : String) (res : Except Err JSVal) : MState :=
  { s with tasks := setTask s.tasks i (.finished id res),
           finishLog := s.finishLog ++ [(i, res)] }

/-- The load body completes with a value: `return moduleCache[id] = module`
(lines 266, 286) overwrites the `Loading` slot and the promise resolves. -/
def finishOwnerOk (s : MState) (i : Nat) (id : String) (v : JSVal) : MState :=
  { s with cache := cupd s.cache id (.done v),
           tasks := setTask s.tasks i (.finished id (.ok v)),
           finishLog := s.finishLog ++ [(i, .ok v)] }

/-- The load body throws: the promise inside the retained `Loading` rejects
and the slot is never replaced (lines 272, 284). -/
def finishOwnerErr (s : MState) (i : Nat) (id : String) (e : Err) : MState :=
  { s with cache := cupd s.cache id (.pending (some (.error e))),
           tasks := setTask s.tasks i (.finished id (.error e)),
           finishLog := s.finishLog ++ [(i, .error e)] }

/-- Run task `i` from its suspension point to the next one.

`start`: lines 247-260 and 290 — call `getResource`, check the cache
(returning / attaching when an entry exists), otherwise run the load body to
its first `await` and install the `Loading` entry, all in one synchronous
segment.  `sLoadMod`: resume at line 264 with the `loadModule` result.
`sGetContent`: resume at line 269 with `{ content, extname }`; non-string
content throws (line 272), otherwise the next `await` is the caller handler
(line 278) or the built-in one (line 281).  `sHandle` / `sDefault`: resume
with the handler result; an `undefined` result falls through, and if both
handlers decline the unsupported-type `TypeError` is thrown (line 284).
`awaiting`: a settled promise (or an overwritten slot) delivers its result. -/
def loadStep (o : Options) (s : MState) (i : Nat) : MState :=
  match s.tasks i with
  | .idle => s
  | .finished _ _ => s
  | .start c =>
    let r := o.getResource c
    let s0 := { s with resolveCount := bump s.resolveCount r.id }
    match s.cache r.id with
    | some (.done v) => finishTask s0 i r.id (.ok v)
    | some (.pending _) => { s0 with tasks := setTask s.tasks i (.awaiting r.id) }
    | none =>
      match o.loadModule with
      | some _ =>
        { s0 with cache := cupd s.cache r.id (.pending none),
                  pendingCount := bump s.pendingCount r.id,
                  tasks := setTask s.tasks i (.sLoadMod r) }
      | none =>
        { s0 with cache := cupd s.cache r.id (.pending none),
                  pendingCount := bump s.pendingCount r.id,
                  fetchCount := bump s.fetchCount r.id,
                  tasks := setTask s.tasks i (.sGetContent r) }
  | .awaiting id =>
    match s.cache id with
    | some (.done v) => finishTask s i id (.ok v)
    | some (.pending (some res)) => finishTask s i id res
    | _ => s
  | .sLoadMod r =>
    match o.loadModule with
    | some f =>
      match f r.id with
      | some v => finishOwnerOk s i r.id v
      | none => { s with fetchCount := bump s.fetchCount r.id,
                         tasks := setTask s.tasks i (.sGetContent r) }
    | none => s
  | .sGetContent r =>
    match r.content with
    | .nonStr tag => finishOwnerErr s i r.id (.invalidContent r.path tag)
    | .str content =>
      match o.handleModule with
      | some _ => { s with handleCount := bump s.handleCount r.id,
                           tasks := setTask s.tasks i (.sHandle r content) }
      | none => { s with defaultCount := bump s.defaultCount r.id,
                         tasks := setTask s.tasks i (.sDefault r content) }
  | .sHandle r content =>
    match o.handleModule with
    | some h =>
      match h r.extname content r.path with
      | some v => finishOwnerOk s i r.id v
      | none => { s with defaultCount := bump s.defaultCount r.id,
                         tasks := setTask s.tasks i (.sDefault r content) }
    | none => s
  | .sDefault r content =>
    match defaultHandleModule o r.extname content r.path with
    | some v => finishOwnerOk s i r.id v
    | none => finishOwnerErr s i r.id (.unsupported r.extname r.path)

/-- Run a schedule: an arbitrary interleaving of the tasks' segments. -/
def loadRun (o : Options) (s : MState) (sched : List Nat) : MState :=
  sched.foldl (loadStep o) s

/-- One `start` task per requested path context; every other index is idle. -/
def initTasks (cs : List PathContext) : Nat → TaskSt :=
  fun i =>
    match cs[i]? with
    | some c => .start c
    | none => .idle

/-- A fresh loading session: empty module cache, zero counters, the given
requests not yet started. -/
def initState (cs : List PathContext) : MState :=
  { cache := fun _ => none, fetchCount := fun _ => 0, resolveCount := fun _ => 0,
    handleCount := fun _ => 0, defaultCount := fun _ => 0, pendingCount := fun _ => 0,
    finishLog := [], logCalls := [], tasks := initTasks cs }

/-- The aggregate result of `loadDeps(refPath, deps, options)` (lines
351-354), i.e. of `await Promise.all(deps.map(relPath =>
loadModuleInternal({refPath, relPath}, options)))` over the first `n` tasks:
`Promise.all` rejects with the temporally first rejection among them, and
resolves once all of them resolved.  `none` means still pending. -/
def loadDepsOutcome (s : MState) (n : Nat) : Option (Except Err Unit) :=
  match s.finishLog.findSome?
      (fun e => if e.1 < n then
          match e.2 with
          | .error err => some err
          | .ok _ => none
        else none) with
  | some e => some (.error e)
  | none =>
    if (List.range n).all (fun i =>
        match s.tasks i with
        | .finished _ (.ok _) => true
        | _ => false) then
      some (.ok ())
    else none

/-!
The single-flight invariant.  For every identity the shared state is always in
one of three phases: no entry yet (`Phase1`), an in-flight load owned by
exactly one task (`Phase2`), or a settled entry that every settled request
agrees with (`Phase3`).
-/

/-- The resource of a task that currently owns a load body, if any. -/
def ownerRes : TaskSt → Option Resource
  | .sLoadMod r => some r
  | .sGetContent r => some r
  | .sHandle r _ => some r
  | .sDefault r _ => some r
  | _ => none

/-- The task neither owns a load body for `id`, nor awaits `id`, nor has
settled for `id`. -/
def NonPartic (t : TaskSt) (id : String) : Prop :=
  (∀ r, ownerRes t = some r → r.id ≠ id) ∧ t ≠ .awaiting id ∧ ∀ res, t ≠ .finished id res

/-- The task neither owns a load body for `id` nor has settled for `id`
(awaiting `id` is allowed). -/
def Free2 (t : TaskSt) (id : String) : Prop :=
  (∀ r, ownerRes t = some r → r.id ≠ id) ∧ ∀ res, t ≠ .finished id res

/-- The owning task's position inside the load body, together with the exact
number of `getContent` calls made for the identity so far. -/
def OwnerStage (t : TaskSt) (r : Resource) (fc : Nat) : Prop :=
  (t = .sLoadMod r ∧ fc = 0)
  ∨ (t = .sGetContent r ∧ fc = 1)
  ∨ (∃ c, t = .sHandle r c ∧ fc = 1)
  ∨ (∃ c, t = .sDefault r c ∧ fc = 1)

/-- The cache entry is settled and delivers `res` to whoever reads it. -/
def TermEntry (e : Option Entry) (res : Except Err JSVal) : Prop :=
  (∃ v, e = some (.done v) ∧ res = .ok v) ∨ e = some (.pending (some res))

/-- No entry for `id` yet: no fetch happened, no `Loading` was ever installed,
and no task participates in `id`. -/
def Phase1 (s : MState) (id : String) : Prop :=
  s.cache id = none ∧ s.fetchCount id = 0 ∧ s.pendingCount id = 0 ∧
    ∀ j, NonPartic (s.tasks j) id

/-- A load for `id` is in flight: exactly one `Loading` was installed, its
promise is unsettled, a unique task owns the body, and no task has settled
for `id`. -/
def Phase2 (s : MState) (id : String) : Prop :=
  s.cache id = some (.pending none) ∧ s.pendingCount id = 1 ∧
    ∃ k r, r.id = id ∧ OwnerStage (s.tasks k) r (s.fetchCount id) ∧
      ∀ j, j ≠ k → Free2 (s.tasks j) id

/-- The entry for `id` is settled: exactly one `Loading` was ever installed,
at most one fetch happened (exactly one if no `loadModule` callback could
short-circuit), no task owns a body for `id` any more, and every settled task
for `id` got the entry's result. -/
def Phase3 (o : Options) (s : MState) (id : String) : Prop :=
  ∃ res, TermEntry (s.cache id) res ∧ s.pendingCount id = 1 ∧
    s.fetchCount id ≤ 1 ∧ (o.loadModule = none → s.fetchCount id = 1) ∧
    (∀ j r, ownerRes (s.tasks j) = some r → r.id ≠ id) ∧
    (∀ j res', s.tasks j = .finished id res' → res' = res)

/-- The global invariant of the module cache. -/
def LoaderInv (o : Options) (s : MState) : Prop :=
  ∀ id, Phase1 s id ∨ Phase2 s id ∨ Phase3 o s id

theorem cupd_self (c : String → Option Entry) (id : String) (e : Entry) :
    cupd c id e id = some e := if_pos rfl

theorem cupd_ne (c : String → Option Entry) (id : String) (e : Entry) (x : String)
    (h : x ≠ id) : cupd c id e x = c x := if_neg h

theorem bump_self (f : String → Nat) (id : String) : bump f id id = f id + 1 := if_pos rfl

theorem bump_ne (f : String → Nat) (id : String) (x : String) (h : x ≠ id) :
    bump f id x = f x := if_neg h

theorem setTask_self (ts : Nat → TaskSt) (i : Nat) (t : TaskSt) : setTask ts i t i = t :=
  if_pos rfl

theorem setTask_ne (ts : Nat → TaskSt) (i : Nat) (t : TaskSt) (j : Nat) (h : j ≠ i) :
    setTask ts i t j = ts j := if_neg h

theorem ownerRes_of_stage {t : TaskSt} {r : Resource} {fc : Nat}
    (h : OwnerStage t r fc) : ownerRes t = some r := by
  rcases h with ⟨h, _⟩ | ⟨h, _⟩ | ⟨c, h, _⟩ | ⟨c, h, _⟩ <;> subst h <;> rfl

theorem nonPartic_free2 {t : TaskSt} {id : String} (h : NonPartic t id) : Free2 t id :=
  ⟨h.1, h.2.2⟩

/-- A step that does not touch identity `id`'s cache slot or counters and only
rewrites task `i` to a state not participating in `id` preserves the per-id
invariant. -/
theorem invAt_other {o : Options} {s s' : MState} {id : String} {i : Nat}
    (h : Phase1 s id ∨ Phase2 s id ∨ Phase3 o s id)
    (hc : s'.cache id = s.cache id) (hf : s'.fetchCount id = s.fetchCount id)
    (hp : s'.pendingCount id = s.pendingCount id)
    (ht : ∀ j, j ≠ i → s'.tasks j = s.tasks j)
    (hold : ∀ r, ownerRes (s.tasks i) = some r → r.id ≠ id)
    (hnew : NonPartic (s'.tasks i) id) :
    Phase1 s' id ∨ Phase2 s' id ∨ Phase3 o s' id := by
  rcases h with ⟨h1, h2, h3, h4⟩ | ⟨h1, h2, k, r, hrid, hstage, hfree⟩ |
    ⟨res, hterm, hpc, hfc, hfcn, hown, hfin⟩
  · left
    refine ⟨hc.trans h1, hf.trans h2, hp.trans h3, fun j => ?_⟩
    by_cases hj : j = i
    · subst hj; exact hnew
    · rw [ht j hj]; exact h4 j
  · right; left
    have hki : k ≠ i := by
      intro hk; subst hk
      exact hold r (ownerRes_of_stage hstage) hrid
    refine ⟨hc.trans h1, hp.trans h2, k, r, hrid, ?_, fun j hj => ?_⟩
    · rw [ht k hki, hf]; exact hstage
    · by_cases hji : j = i
      · subst hji; exact nonPartic_free2 hnew
      · rw [ht j hji]; exact hfree j hj
  · right; right
    refine ⟨res, by rw [hc]; exact hterm, hp.trans hpc, hf ▸ hfc,
      fun hn => by rw [hf]; exact hfcn hn, fun j rr hr => ?_, fun j res' hres' => ?_⟩
    · by_cases hji : j = i
      · subst hji; exact hnew.1 rr hr
      · rw [ht j hji] at hr; exact hown j rr hr
    · by_cases hji : j = i
      · subst hji; exact absurd hres' (hnew.2.2 res')
      · rw [ht j hji] at hres'; exact hfin j res' hres'

/-- If task `i` currently owns a load body for `id`, the state is in `Phase2`
with task `i` as the unique owner. -/
theorem phase2_owner_here {o : Options} {s : MState} {id : String} {i : Nat} {r0 : Resource}
    (h : Phase1 s id ∨ Phase2 s id ∨ Phase3 o s id)
    (hor : ownerRes (s.tasks i) = some r0) (hr0 : r0.id = id) :
    s.cache id = some (.pending none) ∧ s.pendingCount id = 1 ∧
      OwnerStage (s.tasks i) r0 (s.fetchCount id) ∧ ∀ j, j ≠ i → Free2 (s.tasks j) id := by
  rcases h with ⟨_, _, _, h4⟩ | ⟨h1, h2, k, r, hrid, hstage, hfree⟩ |
    ⟨res, _, _, _, _, hown, _⟩
  · exact absurd hr0 ((h4 i).1 r0 hor)
  · have hki : k = i := by
      by_contra hk
      exact (hfree i (fun hik => hk hik.symm)).1 r0 hor hr0
    subst hki
    have hrr : r = r0 := by
      have h5 := ownerRes_of_stage hstage
      rw [hor] at h5
      exact (Option.some.injEq _ _ ▸ h5).symm
    subst hrr
    exact ⟨h1, h2, hstage, hfree⟩
  · exact absurd hr0 (hown i r0 hor)

/-!
Branch equations of `loadStep`, used both by the invariant-preservation proof
and by the symbolic executions of concrete scenarios.
-/

theorem loadStep_idle {o : Options} {s : MState} {i : Nat}
    (hti : s.tasks i = .idle) : loadStep o s i = s := by
  unfold loadStep; rw [hti]

theorem loadStep_finished {o : Options} {s : MState} {i : Nat} {fid : String}
    {fres : Except Err JSVal} (hti : s.tasks i = .finished fid fres) :
    loadStep o s i = s := by
  unfold loadStep; rw [hti]

theorem loadStep_start_done {o : Options} {s : MState} {i : Nat} {c : PathContext} {v : JSVal}
    (hti : s.tasks i = .start c) (hc : s.cache (o.getResource c).id = some (.done v)) :
    loadStep o s i =
      finishTask { s with resolveCount := bump s.resolveCount (o.getResource c).id }
        i (o.getResource c).id (.ok v) := by
  unfold loadStep; rw [hti]; simp only [hc]

theorem loadStep_start_pending {o : Options} {s : MState} {i : Nat} {c : PathContext}
    {p : Option (Except Err JSVal)}
    (hti : s.tasks i = .start c) (hc : s.cache (o.getResource c).id = some (.pending p)) :
    loadStep o s i =
      { s with resolveCount := bump s.resolveCount (o.getResource c).id,
               tasks := setTask s.tasks i (.awaiting (o.getResource c).id) } := by
  unfold loadStep; rw [hti]; simp only [hc]

theorem loadStep_start_none_some {o : Options} {s : MState} {i : Nat} {c : PathContext}
    {f : String → Option JSVal}
    (hti : s.tasks i = .start c) (hc : s.cache (o.getResource c).id = none)
    (hlm : o.loadModule = some f) :
    loadStep o s i =
      { s with resolveCount := bump s.resolveCount (o.getResource c).id,
               cache := cupd s.cache (o.getResource c).id (.pending none),
               pendingCount := bump s.pendingCount (o.getResource c).id,
               tasks := setTask s.tasks i (.sLoadMod (o.getResource c)) } := by
  unfold loadStep; rw [hti]; simp only [hc, hlm]

theorem loadStep_start_none_none {o : Options} {s : MState} {i : Nat} {c : PathContext}
    (hti : s.tasks i = .start c) (hc : s.cache (o.getResource c).id = none)
    (hlm : o.loadModule = none) :
    loadStep o s i =
      { s with resolveCount := bump s.resolveCount (o.getResource c).id,
               cache := cupd s.cache (o.getResource c).id (.pending none),
               pendingCount := bump s.pendingCount (o.getResource c).id,
               fetchCount := bump s.fetchCount (o.getResource c).id,
               tasks := setTask s.tasks i (.sGetContent (o.getResource c)) } := by
  unfold loadStep; rw [hti]; simp only [hc, hlm]

theorem loadStep_awaiting_done {o : Options} {s : MState} {i : Nat} {aid : String} {v : JSVal}
    (hti : s.tasks i = .awaiting aid) (hc : s.cache aid = some (.done v)) :
    loadStep o s i = finishTask s i aid (.ok v) := by
  unfold loadStep; rw [hti]; simp only [hc]

theorem loadStep_awaiting_settled {o : Options} {s : MState} {i : Nat} {aid : String}
    {res : Except Err JSVal}
    (hti : s.tasks i = .awaiting aid) (hc : s.cache aid = some (.pending (some res))) :
    loadStep o s i = finishTask s i aid res := by
  unfold loadStep; rw [hti]; simp only [hc]

theorem loadStep_awaiting_unsettled {o : Options} {s : MState} {i : Nat} {aid : String}
    (hti : s.tasks i = .awaiting aid) (hc : s.cache aid = some (.pending none)) :
    loadStep o s i = s := by
  unfold loadStep; rw [hti]; simp only [hc]

theorem loadStep_awaiting_none {o : Options} {s : MState} {i : Nat} {aid : String}
    (hti : s.tasks i = .awaiting aid) (hc : s.cache aid = none) :
    loadStep o s i = s := by
  unfold loadStep; rw [hti]; simp only [hc]

theorem loadStep_sLoadMod_hit {o : Options} {s : MState} {i : Nat} {r : Resource}
    {f : String → Option JSVal} {v : JSVal}
    (hti : s.tasks i = .sLoadMod r) (hlm : o.loadModule = some f) (hf : f r.id = some v) :
    loadStep o s i = finishOwnerOk s i r.id v := by
  unfold loadStep; rw [hti]; simp only [hlm, hf]

theorem loadStep_sLoadMod_miss {o : Options} {s : MState} {i : Nat} {r : Resource}
    {f : String → Option JSVal}
    (hti : s.tasks i = .sLoadMod r) (hlm : o.loadModule = some f) (hf : f r.id = none) :
    loadStep o s i =
      { s with fetchCount := bump s.fetchCount r.id,
               tasks := setTask s.tasks i (.sGetContent r) } := by
  unfold loadStep; rw [hti]; simp only [hlm, hf]

theorem loadStep_sLoadMod_none {o : Options} {s : MState} {i : Nat} {r : Resource}
    (hti : s.tasks i = .sLoadMod r) (hlm : o.loadModule = none) :
    loadStep o s i = s := by
  unfold loadStep; rw [hti]; simp only [hlm]

theorem loadStep_sGetContent_nonStr {o : Options} {s : MState} {i : Nat} {r : Resource}
    {tag : String}
    (hti : s.tasks i = .sGetContent r) (hcon : r.content = .nonStr tag) :
    loadStep o s i = finishOwnerErr s i r.id (.invalidContent r.path tag) := by
  unfold loadStep; rw [hti]; simp only [hcon]

theorem loadStep_sGetContent_str_handle {o : Options} {s : MState} {i : Nat} {r : Resource}
    {content : String} {hf : String → String → String → Option JSVal}
    (hti : s.tasks i = .sGetContent r) (hcon : r.content = .str content)
    (hh : o.handleModule = some hf) :
    loadStep o s i =
      { s with handleCount := bump s.handleCount r.id,
               tasks := setTask s.tasks i (.sHandle r content) } := by
  unfold loadStep; rw [hti]; simp only [hcon, hh]

theorem loadStep_sGetContent_str_default {o : Options} {s : MState} {i : Nat} {r : Resource}
    {content : String}
    (hti : s.tasks i = .sGetContent r) (hcon : r.content = .str content)
    (hh : o.handleModule = none) :
    loadStep o s i =
      { s with defaultCount := bump s.defaultCount r.id,
               tasks := setTask s.tasks i (.sDefault r content) } := by
  unfold loadStep; rw [hti]; simp only [hcon, hh]

theorem loadStep_sHandle_some {o : Options} {s : MState} {i : Nat} {r : Resource}
    {content : String} {hf : String → String → String → Option JSVal} {v : JSVal}
    (hti : s.tasks i = .sHandle r content) (hh : o.handleModule = some hf)
    (hv : hf r.extname content r.path = some v) :
    loadStep o s i = finishOwnerOk s i r.id v := by
  unfold loadStep; rw [hti]; simp only [hh, hv]

theorem loadStep_sHandle_fall {o : Options} {s : MState} {i : Nat} {r : Resource}
    {content : String} {hf : String → String → String → Option JSVal}
    (hti : s.tasks i = .sHandle r content) (hh : o.handleModule = some hf)
    (hv : hf r.extname content r.path = none) :
    loadStep o s i =
      { s with defaultCount := bump s.defaultCount r.id,
               tasks := setTask s.tasks i (.sDefault r content) } := by
  unfold loadStep; rw [hti]; simp only [hh, hv]

theorem loadStep_sHandle_none {o : Options} {s : MState} {i : Nat} {r : Resource}
    {content : String}
    (hti : s.tasks i = .sHandle r content) (hh : o.handleModule = none) :
    loadStep o s i = s := by
  unfold loadStep; rw [hti]; simp only [hh]

theorem loadStep_sDefault_some {o : Options} {s : MState} {i : Nat} {r : Resource}
    {content : String} {v : JSVal}
    (hti : s.tasks i = .sDefault r content)
    (hd : defaultHandleModule o r.extname content r.path = some v) :
    loadStep o s i = finishOwnerOk s i r.id v := by
  unfold loadStep; rw [hti]; simp only [hd]

theorem loadStep_sDefault_none {o : Options} {s : MState} {i : Nat} {r : Resource}
    {content : String}
    (hti : s.tasks i = .sDefault r content)
    (hd : defaultHandleModule o r.extname content r.path = none) :
    loadStep o s i = finishOwnerErr s i r.id (.unsupported r.extname r.path) := by
  unfold loadStep; rw [hti]; simp only [hd]

theorem term_done {res : Except Err JSVal} {v : JSVal}
    (ht : TermEntry (some (.done v)) res) : res = .ok v := by
  rcases ht with ⟨v', he, hres⟩ | he
  · injection he with h1
    injection h1 with h2
    rw [hres, h2]
  · injection he with h1
    exact Entry.noConfusion h1

theorem term_settled {res p : Except Err JSVal}
    (ht : TermEntry (some (.pending (some p))) res) : res = p := by
  rcases ht with ⟨v', he, hres⟩ | he
  · injection he with h1
    exact Entry.noConfusion h1
  · injection he with h1
    injection h1 with h2
    injection h2 with h3
    exact h3.symm

theorem phase1_of_none {o : Options} {s : MState} {id : String}
    (h : Phase1 s id ∨ Phase2 s id ∨ Phase3 o s id) (hc : s.cache id = none) :
    Phase1 s id := by
  rcases h with hP | hP | hP
  · exact hP
  · exact Option.noConfusion (hc.symm.trans hP.1)
  · rcases hP with ⟨res, hterm, _⟩
    rcases hterm with ⟨v, he, _⟩ | he <;> exact Option.noConfusion (hc.symm.trans he)

theorem phase3_of_term {o : Options} {s : MState} {id : String} {res : Except Err JSVal}
    (h : Phase1 s id ∨ Phase2 s id ∨ Phase3 o s id) (ht : TermEntry (s.cache id) res) :
    Phase3 o s id := by
  rcases h with hP | hP | hP
  · rcases ht with ⟨v, he, _⟩ | he <;> exact Option.noConfusion (hP.1.symm.trans he)
  · rcases ht with ⟨v, he, _⟩ | he
    · have h2 := hP.1.symm.trans he
      injection h2 with h3
      exact Entry.noConfusion h3
    · have h2 := hP.1.symm.trans he
      injection h2 with h3
      injection h3 with h4
      exact Option.noConfusion h4
  · exact hP

theorem nonPartic_owner {t : TaskSt} {r : Resource} {id : String}
    (hor : ownerRes t = some r) (hne : r.id ≠ id) : NonPartic t id := by
  refine ⟨fun rr hrr => ?_, fun hEq => ?_, fun res hEq => ?_⟩
  · rw [hor] at hrr
    injection hrr with h1
    rw [← h1]
    exact hne
  · rw [hEq] at hor
    exact Option.noConfusion hor
  · rw [hEq] at hor
    exact Option.noConfusion hor

theorem nonPartic_finished {fid id : String} {res : Except Err JSVal} (h : fid ≠ id) :
    NonPartic (.finished fid res) id :=
  ⟨fun _ hrr => Option.noConfusion hrr, fun hEq => TaskSt.noConfusion hEq,
   fun _ hEq => by injection hEq with h1 _; exact h h1⟩

theorem nonPartic_awaiting {aid id : String} (h : aid ≠ id) :
    NonPartic (.awaiting aid) id :=
  ⟨fun _ hrr => Option.noConfusion hrr, fun hEq => by injection hEq with h1; exact h h1,
   fun _ hEq => TaskSt.noConfusion hEq⟩

theorem nonPartic_start {c : PathContext} {id : String} : NonPartic (.start c) id :=
  ⟨fun _ hrr => Option.noConfusion hrr, fun hEq => TaskSt.noConfusion hEq,
   fun _ hEq => TaskSt.noConfusion hEq⟩

theorem nonPartic_idle {id : String} : NonPartic .idle id :=
  ⟨fun _ hrr => Option.noConfusion hrr, fun hEq => TaskSt.noConfusion hEq,
   fun _ hEq => TaskSt.noConfusion hEq⟩

theorem free2_awaiting {aid id : String} : Free2 (.awaiting aid) id :=
  ⟨fun _ hrr => Option.noConfusion hrr, fun _ hEq => TaskSt.noConfusion hEq⟩

/-- The owning task completes the load body with a value: the identity enters
the settled phase. -/
theorem phase3_finishOk {o : Options} {s : MState} {i : Nat} {r : Resource} {v : JSVal}
    (hpc : s.pendingCount r.id = 1)
    (hfree : ∀ j, j ≠ i → Free2 (s.tasks j) r.id)
    (hfc : s.fetchCount r.id ≤ 1)
    (hfcn : o.loadModule = none → s.fetchCount r.id = 1) :
    Phase3 o (finishOwnerOk s i r.id v) r.id := by
  refine ⟨.ok v, Or.inl ⟨v, cupd_self _ _ _, rfl⟩, hpc, hfc, hfcn,
    fun j rr hrr => ?_, fun j res' hres' => ?_⟩
  · by_cases hji : j = i
    · subst hji
      simp only [finishOwnerOk, setTask_self] at hrr
      exact Option.noConfusion hrr
    · simp only [finishOwnerOk] at hrr
      rw [setTask_ne _ _ _ _ hji] at hrr
      exact (hfree j hji).1 rr hrr
  · by_cases hji : j = i
    · subst hji
      simp only [finishOwnerOk, setTask_self] at hres'
      injection hres' with _ h2
      exact h2.symm
    · simp only [finishOwnerOk] at hres'
      rw [setTask_ne _ _ _ _ hji] at hres'
      exact absurd hres' ((hfree j hji).2 res')

/-- The owning task's load body throws: the identity enters the settled
(failed) phase. -/
theorem phase3_finishErr {o : Options} {s : MState} {i : Nat} {r : Resource} {e : Err}
    (hpc : s.pendingCount r.id = 1)
    (hfree : ∀ j, j ≠ i → Free2 (s.tasks j) r.id)
    (hfc : s.fetchCount r.id ≤ 1)
    (hfcn : o.loadModule = none → s.fetchCount r.id = 1) :
    Phase3 o (finishOwnerErr s i r.id e) r.id := by
  refine ⟨.error e, Or.inr (cupd_self _ _ _), hpc, hfc, hfcn,
    fun j rr hrr => ?_, fun j res' hres' => ?_⟩
  · by_cases hji : j = i
    · subst hji
      simp only [finishOwnerErr, setTask_self] at hrr
      exact Option.noConfusion hrr
    · simp only [finishOwnerErr] at hrr
      rw [setTask_ne _ _ _ _ hji] at hrr
      exact (hfree j hji).1 rr hrr
  · by_cases hji : j = i
    · subst hji
      simp only [finishOwnerErr, setTask_self] at hres'
      injection hres' with _ h2
      exact h2.symm
    · simp only [finishOwnerErr] at hres'
      rw [setTask_ne _ _ _ _ hji] at hres'
      exact absurd hres' ((hfree j hji).2 res')

/-- Finishing a task for some other identity preserves the invariant at `id`. -/
theorem invAt_finishOk_other {o : Options} {s : MState} {id : String} {i : Nat}
    {r : Resource} {v : JSVal}
    (h : Phase1 s id ∨ Phase2 s id ∨ Phase3 o s id)
    (hold : ∀ rr, ownerRes (s.tasks i) = some rr → rr.id ≠ id)
    (hid : r.id ≠ id) :
    Phase1 (finishOwnerOk s i r.id v) id ∨ Phase2 (finishOwnerOk s i r.id v) id ∨
      Phase3 o (finishOwnerOk s i r.id v) id := by
  refine invAt_other h ?_ rfl rfl (fun j hj => ?_) hold ?_
  · exact cupd_ne _ _ _ _ (fun hx => hid hx.symm)
  · simp only [finishOwnerOk]
    exact setTask_ne _ _ _ _ hj
  · simp only [finishOwnerOk, setTask_self]
    exact nonPartic_finished hid

theorem invAt_finishErr_other {o : Options} {s : MState} {id : String} {i : Nat}
    {r : Resource} {e : Err}
    (h : Phase1 s id ∨ Phase2 s id ∨ Phase3 o s id)
    (hold : ∀ rr, ownerRes (s.tasks i) = some rr → rr.id ≠ id)
    (hid : r.id ≠ id) :
    Phase1 (finishOwnerErr s i r.id e) id ∨ Phase2 (finishOwnerErr s i r.id e) id ∨
      Phase3 o (finishOwnerErr s i r.id e) id := by
  refine invAt_other h ?_ rfl rfl (fun j hj => ?_) hold ?_
  · exact cupd_ne _ _ _ _ (fun hx => hid hx.symm)
  · simp only [finishOwnerErr]
    exact setTask_ne _ _ _ _ hj
  · simp only [finishOwnerErr, setTask_self]
    exact nonPartic_finished hid

/-- One cooperative step preserves the module-cache invariant. -/
theorem inv_step (o : Options) (s : MState) (i : Nat) (h : LoaderInv o s) :
    LoaderInv o (loadStep o s i) := by
  intro id
  cases hti : s.tasks i with
  | idle =>
    rw [loadStep_idle hti]
    exact h id
  | finished fid fres =>
    rw [loadStep_finished hti]
    exact h id
  | start c =>
    cases hc : s.cache (o.getResource c).id with
    | none =>
      cases hlm : o.loadModule with
      | some f =>
        rw [loadStep_start_none_some hti hc hlm]
        by_cases hid : (o.getResource c).id = id
        · subst hid
          rcases phase1_of_none (h (o.getResource c).id) hc with ⟨p1, p2, p3, p4⟩
          right; left
          refine ⟨cupd_self _ _ _, ?_, i, o.getResource c, rfl, ?_, fun j hj => ?_⟩
          · show bump s.pendingCount (o.getResource c).id (o.getResource c).id = 1
            rw [bump_self, p3]
          · show OwnerStage (setTask s.tasks i (.sLoadMod (o.getResource c)) i)
              (o.getResource c) (s.fetchCount (o.getResource c).id)
            rw [setTask_self]
            exact Or.inl ⟨rfl, p2⟩
          · show Free2 (setTask s.tasks i (.sLoadMod (o.getResource c)) j) (o.getResource c).id
            rw [setTask_ne _ _ _ _ hj]
            exact nonPartic_free2 (p4 j)
        · refine invAt_other (i := i) (h id) ?_ rfl ?_ (fun j hj => ?_) ?_ ?_
          · exact cupd_ne _ _ _ _ (fun hx => hid hx.symm)
          · exact bump_ne _ _ _ (fun hx => hid hx.symm)
          · exact setTask_ne _ _ _ _ hj
          · rw [hti]
            intro rr hrr
            exact Option.noConfusion hrr
          · show NonPartic (setTask s.tasks i (.sLoadMod (o.getResource c)) i) id
            rw [setTask_self]
            exact nonPartic_owner rfl hid
      | none =>
        rw [loadStep_start_none_none hti hc hlm]
        by_cases hid : (o.getResource c).id = id
        · subst hid
          rcases phase1_of_none (h (o.getResource c).id) hc with ⟨p1, p2, p3, p4⟩
          right; left
          refine ⟨cupd_self _ _ _, ?_, i, o.getResource c, rfl, ?_, fun j hj => ?_⟩
          · show bump s.pendingCount (o.getResource c).id (o.getResource c).id = 1
            rw [bump_self, p3]
          · show OwnerStage (setTask s.tasks i (.sGetContent (o.getResource c)) i)
              (o.getResource c) (bump s.fetchCount (o.getResource c).id (o.getResource c).id)
            rw [setTask_self, bump_self, p2]
            exact Or.inr (Or.inl ⟨rfl, rfl⟩)
          · show Free2 (setTask s.tasks i (.sGetContent (o.getResource c)) j) (o.getResource c).id
            rw [setTask_ne _ _ _ _ hj]
            exact nonPartic_free2 (p4 j)
        · refine invAt_other (i := i) (h id) ?_ ?_ ?_ (fun j hj => ?_) ?_ ?_
          · exact cupd_ne _ _ _ _ (fun hx => hid hx.symm)
          · exact bump_ne _ _ _ (fun hx => hid hx.symm)
          · exact bump_ne _ _ _ (fun hx => hid hx.symm)
          · exact setTask_ne _ _ _ _ hj
          · rw [hti]
            intro rr hrr
            exact Option.noConfusion hrr
          · show NonPartic (setTask s.tasks i (.sGetContent (o.getResource c)) i) id
            rw [setTask_self]
            exact nonPartic_owner rfl hid
    | some e =>
      cases e with
      | done v =>
        rw [loadStep_start_done hti hc]
        by_cases hid : (o.getResource c).id = id
        · subst hid
          rcases phase3_of_term (h (o.getResource c).id) (Or.inl ⟨v, hc, rfl⟩) with
            ⟨res, hterm, hpc, hfc, hfcn, hown, hfin⟩
          have hres : res = .ok v := by
            rw [hc] at hterm
            exact term_done hterm
          subst hres
          right; right
          refine ⟨.ok v, Or.inl ⟨v, hc, rfl⟩, hpc, hfc, hfcn, fun j rr hrr => ?_,
            fun j res' hres' => ?_⟩
          · by_cases hji : j = i
            · subst hji
              simp only [finishTask, setTask_self] at hrr
              exact Option.noConfusion hrr
            · simp only [finishTask, setTask_ne _ _ _ _ hji] at hrr
              exact hown j rr hrr
          · by_cases hji : j = i
            · subst hji
              simp only [finishTask, setTask_self] at hres'
              injection hres' with _ h2
              exact h2.symm
            · simp only [finishTask, setTask_ne _ _ _ _ hji] at hres'
              exact hfin j res' hres'
        · refine invAt_other (i := i) (h id) rfl rfl rfl (fun j hj => ?_) ?_ ?_
          · simp only [finishTask]
            exact setTask_ne _ _ _ _ hj
          · rw [hti]
            intro rr hrr
            exact Option.noConfusion hrr
          · simp only [finishTask, setTask_self]
            exact nonPartic_finished hid
      | pending p =>
        rw [loadStep_start_pending hti hc]
        by_cases hid : (o.getResource c).id = id
        · subst hid
          rcases h (o.getResource c).id with hP | hP | hP
          · exact Option.noConfusion (hP.1.symm.trans hc)
          · right; left
            rcases hP with ⟨h1, h2, k, r, hrid, hstage, hfree⟩
            have hki : k ≠ i := by
              intro hk
              subst hk
              have hx := ownerRes_of_stage hstage
              rw [hti] at hx
              exact Option.noConfusion hx
            refine ⟨h1, h2, k, r, hrid, ?_, fun j hj => ?_⟩
            · show OwnerStage (setTask s.tasks i (.awaiting (o.getResource c).id) k) r
                (s.fetchCount (o.getResource c).id)
              rw [setTask_ne _ _ _ _ hki]
              exact hstage
            · show Free2 (setTask s.tasks i (.awaiting (o.getResource c).id) j)
                (o.getResource c).id
              by_cases hji : j = i
              · subst hji
                rw [setTask_self]
                exact free2_awaiting
              · rw [setTask_ne _ _ _ _ hji]
                exact hfree j hj
          · right; right
            rcases hP with ⟨res, hterm, hpc, hfc, hfcn, hown, hfin⟩
            refine ⟨res, hterm, hpc, hfc, hfcn, fun j rr hrr => ?_, fun j res' hres' => ?_⟩
            · by_cases hji : j = i
              · subst hji
                simp only [setTask_self] at hrr
                exact Option.noConfusion hrr
              · simp only [setTask_ne _ _ _ _ hji] at hrr
                exact hown j rr hrr
            · by_cases hji : j = i
              · subst hji
                simp only [setTask_self] at hres'
                exact TaskSt.noConfusion hres'
              · simp only [setTask_ne _ _ _ _ hji] at hres'
                exact hfin j res' hres'
        · refine invAt_other (i := i) (h id) rfl rfl rfl (fun j hj => ?_) ?_ ?_
          · exact setTask_ne _ _ _ _ hj
          · rw [hti]
            intro rr hrr
            exact Option.noConfusion hrr
          · show NonPartic (setTask s.tasks i (.awaiting (o.getResource c).id) i) id
            rw [setTask_self]
            exact nonPartic_awaiting hid
  | awaiting aid =>
    cases hc : s.cache aid with
    | none =>
      rw [loadStep_awaiting_none hti hc]
      exact h id
    | some e =>
      cases e with
      | done v =>
        rw [loadStep_awaiting_done hti hc]
        by_cases hid : aid = id
        · subst hid
          rcases phase3_of_term (h aid) (Or.inl ⟨v, hc, rfl⟩) with
            ⟨res, hterm, hpc, hfc, hfcn, hown, hfin⟩
          have hres : res = .ok v := by
            rw [hc] at hterm
            exact term_done hterm
          subst hres
          right; right
          refine ⟨.ok v, Or.inl ⟨v, hc, rfl⟩, hpc, hfc, hfcn, fun j rr hrr => ?_,
            fun j res' hres' => ?_⟩
          · by_cases hji : j = i
            · subst hji
              simp only [finishTask, setTask_self] at hrr
              exact Option.noConfusion hrr
            · simp only [finishTask, setTask_ne _ _ _ _ hji] at hrr
              exact hown j rr hrr
          · by_cases hji : j = i
            · subst hji
              simp only [finishTask, setTask_self] at hres'
              injection hres' with _ h2
              exact h2.symm
            · simp only [finishTask, setTask_ne _ _ _ _ hji] at hres'
              exact hfin j res' hres'
        · refine invAt_other (i := i) (h id) rfl rfl rfl (fun j hj => ?_) ?_ ?_
          · simp only [finishTask]
            exact setTask_ne _ _ _ _ hj
          · rw [hti]
            intro rr hrr
            exact Option.noConfusion hrr
          · simp only [finishTask, setTask_self]
            exact nonPartic_finished hid
      | pending p =>
        cases p with
        | none =>
          rw [loadStep_awaiting_unsettled hti hc]
          exact h id
        | some res0 =>
          rw [loadStep_awaiting_settled hti hc]
          by_cases hid : aid = id
          · subst hid
            rcases phase3_of_term (h aid) (Or.inr hc) with
              ⟨res, hterm, hpc, hfc, hfcn, hown, hfin⟩
            have hres : res = res0 := by
              rw [hc] at hterm
              exact term_settled hterm
            subst hres
            right; right
            refine ⟨res, Or.inr hc, hpc, hfc, hfcn, fun j rr hrr => ?_,
              fun j res' hres' => ?_⟩
            · by_cases hji : j = i
              · subst hji
                simp only [finishTask, setTask_self] at hrr
                exact Option.noConfusion hrr
              · simp only [finishTask, setTask_ne _ _ _ _ hji] at hrr
                exact hown j rr hrr
            · by_cases hji : j = i
              · subst hji
                simp only [finishTask, setTask_self] at hres'
                injection hres' with _ h2
                exact h2.symm
              · simp only [finishTask, setTask_ne _ _ _ _ hji] at hres'
                exact hfin j res' hres'
          · refine invAt_other (i := i) (h id) rfl rfl rfl (fun j hj => ?_) ?_ ?_
            · simp only [finishTask]
              exact setTask_ne _ _ _ _ hj
            · rw [hti]
              intro rr hrr
              exact Option.noConfusion hrr
            · simp only [finishTask, setTask_self]
              exact nonPartic_finished hid
  | sLoadMod r =>
    cases hlm : o.loadModule with
    | none =>
      rw [loadStep_sLoadMod_none hti hlm]
      exact h id
    | some f =>
      rcases phase2_owner_here (h r.id) (by rw [hti]; rfl) rfl with
        ⟨hcache, hpc, hstage, hfree⟩
      have hfc0 : s.fetchCount r.id = 0 := by
        rw [hti] at hstage
        rcases hstage with ⟨_, hfc⟩ | ⟨hx, _⟩ | ⟨_, hx, _⟩ | ⟨_, hx, _⟩
        · exact hfc
        · exact TaskSt.noConfusion hx
        · exact TaskSt.noConfusion hx
        · exact TaskSt.noConfusion hx
      cases hf : f r.id with
      | some v =>
        rw [loadStep_sLoadMod_hit hti hlm hf]
        by_cases hid : r.id = id
        · subst hid
          exact Or.inr (Or.inr (phase3_finishOk hpc hfree (by rw [hfc0]; omega)
            (fun hn => Option.noConfusion (hlm.symm.trans hn))))
        · exact invAt_finishOk_other (h id)
            (by rw [hti]; intro rr hrr; injection hrr with h1; rw [← h1]; exact hid) hid
      | none =>
        rw [loadStep_sLoadMod_miss hti hlm hf]
        by_cases hid : r.id = id
        · subst hid
          right; left
          refine ⟨hcache, hpc, i, r, rfl, ?_, fun j hj => ?_⟩
          · show OwnerStage (setTask s.tasks i (.sGetContent r) i) r
              (bump s.fetchCount r.id r.id)
            rw [setTask_self, bump_self, hfc0]
            exact Or.inr (Or.inl ⟨rfl, rfl⟩)
          · show Free2 (setTask s.tasks i (.sGetContent r) j) r.id
            rw [setTask_ne _ _ _ _ hj]
            exact hfree j hj
        · refine invAt_other (i := i) (h id) rfl ?_ rfl (fun j hj => ?_) ?_ ?_
          · exact bump_ne _ _ _ (fun hx => hid hx.symm)
          · exact setTask_ne _ _ _ _ hj
          · rw [hti]
            intro rr hrr
            injection hrr with h1
            rw [← h1]
            exact hid
          · show NonPartic (setTask s.tasks i (.sGetContent r) i) id
            rw [setTask_self]
            exact nonPartic_owner rfl hid
  | sGetContent r =>
    rcases phase2_owner_here (h r.id) (by rw [hti]; rfl) rfl with
      ⟨hcache, hpc, hstage, hfree⟩
    have hfc1 : s.fetchCount r.id = 1 := by
      rw [hti] at hstage
      rcases hstage with ⟨hx, _⟩ | ⟨_, hfc⟩ | ⟨_, hx, _⟩ | ⟨_, hx, _⟩
      · exact TaskSt.noConfusion hx
      · exact hfc
      · exact TaskSt.noConfusion hx
      · exact TaskSt.noConfusion hx
    cases hcon : r.content with
    | nonStr tag =>
      rw [loadStep_sGetContent_nonStr hti hcon]
      by_cases hid : r.id = id
      · subst hid
        exact Or.inr (Or.inr (phase3_finishErr hpc hfree (by rw [hfc1]) (fun _ => hfc1)))
      · exact invAt_finishErr_other (h id)
          (by rw [hti]; intro rr hrr; injection hrr with h1; rw [← h1]; exact hid) hid
    | str content =>
      cases hh : o.handleModule with
      | some hfun =>
        rw [loadStep_sGetContent_str_handle hti hcon hh]
        by_cases hid : r.id = id
        · subst hid
          right; left
          refine ⟨hcache, hpc, i, r, rfl, ?_, fun j hj => ?_⟩
          · show OwnerStage (setTask s.tasks i (.sHandle r content) i) r (s.fetchCount r.id)
            rw [setTask_self]
            exact Or.inr (Or.inr (Or.inl ⟨content, rfl, hfc1⟩))
          · show Free2 (setTask s.tasks i (.sHandle r content) j) r.id
            rw [setTask_ne _ _ _ _ hj]
            exact hfree j hj
        · refine invAt_other (i := i) (h id) rfl rfl rfl (fun j hj => ?_) ?_ ?_
          · exact setTask_ne _ _ _ _ hj
          · rw [hti]
            intro rr hrr
            injection hrr with h1
            rw [← h1]
            exact hid
          · show NonPartic (setTask s.tasks i (.sHandle r content) i) id
            rw [setTask_self]
            exact nonPartic_owner rfl hid
      | none =>
        rw [loadStep_sGetContent_str_default hti hcon hh]
        by_cases hid : r.id = id
        · subst hid
          right; left
          refine ⟨hcache, hpc, i, r, rfl, ?_, fun j hj => ?_⟩
          · show OwnerStage (setTask s.tasks i (.sDefault r content) i) r (s.fetchCount r.id)
            rw [setTask_self]
            exact Or.inr (Or.inr (Or.inr ⟨content, rfl, hfc1⟩))
          · show Free2 (setTask s.tasks i (.sDefault r content) j) r.id
            rw [setTask_ne _ _ _ _ hj]
            exact hfree j hj
        · refine invAt_other (i := i) (h id) rfl rfl rfl (fun j hj => ?_) ?_ ?_
          · exact setTask_ne _ _ _ _ hj
          · rw [hti]
            intro rr hrr
            injection hrr with h1
            rw [← h1]
            exact hid
          · show NonPartic (setTask s.tasks i (.sDefault r content) i) id
            rw [setTask_self]
            exact nonPartic_owner rfl hid
  | sHandle r content =>
    cases hh : o.handleModule with
    | none =>
      rw [loadStep_sHandle_none hti hh]
      exact h id
    | some hfun =>
      rcases phase2_owner_here (h r.id) (by rw [hti]; rfl) rfl with
        ⟨hcache, hpc, hstage, hfree⟩
      have hfc1 : s.fetchCount r.id = 1 := by
        rw [hti] at hstage
        rcases hstage with ⟨hx, _⟩ | ⟨hx, _⟩ | ⟨_, _, hfc⟩ | ⟨_, hx, _⟩
        · exact TaskSt.noConfusion hx
        · exact TaskSt.noConfusion hx
        · exact hfc
        · exact TaskSt.noConfusion hx
      cases hv : hfun r.extname content r.path with
      | some v =>
        rw [loadStep_sHandle_some hti hh hv]
        by_cases hid : r.id = id
        · subst hid
          exact Or.inr (Or.inr (phase3_finishOk hpc hfree (by rw [hfc1]) (fun _ => hfc1)))
        · exact invAt_finishOk_other (h id)
            (by rw [hti]; intro rr hrr; injection hrr with h1; rw [← h1]; exact hid) hid
      | none =>
        rw [loadStep_sHandle_fall hti hh hv]
        by_cases hid : r.id = id
        · subst hid
          right; left
          refine ⟨hcache, hpc, i, r, rfl, ?_, fun j hj => ?_⟩
          · show OwnerStage (setTask s.tasks i (.sDefault r content) i) r (s.fetchCount r.id)
            rw [setTask_self]
            exact Or.inr (Or.inr (Or.inr ⟨content, rfl, hfc1⟩))
          · show Free2 (setTask s.tasks i (.sDefault r content) j) r.id
            rw [setTask_ne _ _ _ _ hj]
            exact hfree j hj
        · refine invAt_other (i := i) (h id) rfl rfl rfl (fun j hj => ?_) ?_ ?_
          · exact setTask_ne _ _ _ _ hj
          · rw [hti]
            intro rr hrr
            injection hrr with h1
            rw [← h1]
            exact hid
          · show NonPartic (setTask s.tasks i (.sDefault r content) i) id
            rw [setTask_self]
            exact nonPartic_owner rfl hid
  | sDefault r content =>
    rcases phase2_owner_here (h r.id) (by rw [hti]; rfl) rfl with
      ⟨hcache, hpc, hstage, hfree⟩
    have hfc1 : s.fetchCount r.id = 1 := by
      rw [hti] at hstage
      rcases hstage with ⟨hx, _⟩ | ⟨hx, _⟩ | ⟨_, hx, _⟩ | ⟨_, _, hfc⟩
      · exact TaskSt.noConfusion hx
      · exact TaskSt.noConfusion hx
      · exact TaskSt.noConfusion hx
      · exact hfc
    cases hd : defaultHandleModule o r.extname content r.path with
    | some v =>
      rw [loadStep_sDefault_some hti hd]
      by_cases hid : r.id = id
      · subst hid
        exact Or.inr (Or.inr (phase3_finishOk hpc hfree (by rw [hfc1]) (fun _ => hfc1)))
      · exact invAt_finishOk_other (h id)
          (by rw [hti]; intro rr hrr; injection hrr with h1; rw [← h1]; exact hid) hid
    | none =>
      rw [loadStep_sDefault_none hti hd]
      by_cases hid : r.id = id
      · subst hid
        exact Or.inr (Or.inr (phase3_finishErr hpc hfree (by rw [hfc1]) (fun _ => hfc1)))
      · exact invAt_finishErr_other (h id)
          (by rw [hti]; intro rr hrr; injection hrr with h1; rw [← h1]; exact hid) hid

/-- A fresh session satisfies the invariant. -/
theorem inv_init (o : Options) (cs : List PathContext) : LoaderInv o (initState cs) := by
  intro id
  left
  refine ⟨rfl, rfl, rfl, fun j => ?_⟩
  show NonPartic (initTasks cs j) id
  unfold initTasks
  cases cs[j]? with
  | some c => exact nonPartic_start
  | none => exact nonPartic_idle

/-- Any schedule preserves the invariant. -/
theorem inv_run {o : Options} (sched : List Nat) {s : MState} (h : LoaderInv o s) :
    LoaderInv o (loadRun o s sched) := by
  induction sched generalizing s with
  | nil => exact h
  | cons a tl ih => exact ih (inv_step o s a h)

/-- Once the entry of `id` is settled, no single step changes its slot, its
fetch counter, or its `Loading`-installation counter. -/
theorem step_frozen {o : Options} {s : MState} (i : Nat) {id : String}
    {res : Except Err JSVal}
    (h : LoaderInv o s) (ht : TermEntry (s.cache id) res) :
    (loadStep o s i).cache id = s.cache id ∧
    (loadStep o s i).fetchCount id = s.fetchCount id ∧
    (loadStep o s i).pendingCount id = s.pendingCount id := by
  rcases phase3_of_term (h id) ht with ⟨res1, hterm, hpc, hfc, hfcn, hown, hfin⟩
  cases hti : s.tasks i with
  | idle =>
    rw [loadStep_idle hti]
    exact ⟨rfl, rfl, rfl⟩
  | finished fid fres =>
    rw [loadStep_finished hti]
    exact ⟨rfl, rfl, rfl⟩
  | start c =>
    cases hc : s.cache (o.getResource c).id with
    | none =>
      have hne : (o.getResource c).id ≠ id := by
        intro hx
        rw [hx] at hc
        rcases hterm with ⟨v, he, _⟩ | he <;> exact Option.noConfusion (hc.symm.trans he)
      cases hlm : o.loadModule with
      | some f =>
        rw [loadStep_start_none_some hti hc hlm]
        exact ⟨cupd_ne _ _ _ _ (fun hx => hne hx.symm), rfl,
          bump_ne _ _ _ (fun hx => hne hx.symm)⟩
      | none =>
        rw [loadStep_start_none_none hti hc hlm]
        exact ⟨cupd_ne _ _ _ _ (fun hx => hne hx.symm),
          bump_ne _ _ _ (fun hx => hne hx.symm),
          bump_ne _ _ _ (fun hx => hne hx.symm)⟩
    | some e =>
      cases e with
      | done v =>
        rw [loadStep_start_done hti hc]
        exact ⟨rfl, rfl, rfl⟩
      | pending p =>
        rw [loadStep_start_pending hti hc]
        exact ⟨rfl, rfl, rfl⟩
  | awaiting aid =>
    cases hc : s.cache aid with
    | none =>
      rw [loadStep_awaiting_none hti hc]
      exact ⟨rfl, rfl, rfl⟩
    | some e =>
      cases e with
      | done v =>
        rw [loadStep_awaiting_done hti hc]
        exact ⟨rfl, rfl, rfl⟩
      | pending p =>
        cases p with
        | none =>
          rw [loadStep_awaiting_unsettled hti hc]
          exact ⟨rfl, rfl, rfl⟩
        | some res2 =>
          rw [loadStep_awaiting_settled hti hc]
          exact ⟨rfl, rfl, rfl⟩
  | sLoadMod r =>
    have hne : r.id ≠ id := hown i r (by rw [hti]; rfl)
    cases hlm : o.loadModule with
    | none =>
      rw [loadStep_sLoadMod_none hti hlm]
      exact ⟨rfl, rfl, rfl⟩
    | some f =>
      cases hf : f r.id with
      | some v =>
        rw [loadStep_sLoadMod_hit hti hlm hf]
        exact ⟨cupd_ne _ _ _ _ (fun hx => hne hx.symm), rfl, rfl⟩
      | none =>
        rw [loadStep_sLoadMod_miss hti hlm hf]
        exact ⟨rfl, bump_ne _ _ _ (fun hx => hne hx.symm), rfl⟩
  | sGetContent r =>
    have hne : r.id ≠ id := hown i r (by rw [hti]; rfl)
    cases hcon : r.content with
    | nonStr tag =>
      rw [loadStep_sGetContent_nonStr hti hcon]
      exact ⟨cupd_ne _ _ _ _ (fun hx => hne hx.symm), rfl, rfl⟩
    | str content =>
      cases hh : o.handleModule with
      | some hfun =>
        rw [loadStep_sGetContent_str_handle hti hcon hh]
        exact ⟨rfl, rfl, rfl⟩
      | none =>
        rw [loadStep_sGetContent_str_default hti hcon hh]
        exact ⟨rfl, rfl, rfl⟩
  | sHandle r content =>
    have hne : r.id ≠ id := hown i r (by rw [hti]; rfl)
    cases hh : o.handleModule with
    | none =>
      rw [loadStep_sHandle_none hti hh]
      exact ⟨rfl, rfl, rfl⟩
    | some hfun =>
      cases hv : hfun r.extname content r.path with
      | some v =>
        rw [loadStep_sHandle_some hti hh hv]
        exact ⟨cupd_ne _ _ _ _ (fun hx => hne hx.symm), rfl, rfl⟩
      | none =>
        rw [loadStep_sHandle_fall hti hh hv]
        exact ⟨rfl, rfl, rfl⟩
  | sDefault r content =>
    have hne : r.id ≠ id := hown i r (by rw [hti]; rfl)
    cases hd : defaultHandleModule o r.extname content r.path with
    | some v =>
      rw [loadStep_sDefault_some hti hd]
      exact ⟨cupd_ne _ _ _ _ (fun hx => hne hx.symm), rfl, rfl⟩
    | none =>
      rw [loadStep_sDefault_none hti hd]
      exact ⟨cupd_ne _ _ _ _ (fun hx => hne hx.symm), rfl, rfl⟩

/-- Once the entry of `id` is settled, no schedule whatsoever changes its
slot, its fetch counter, or its `Loading`-installation counter. -/
theorem run_frozen {o : Options} (sched : List Nat) {s : MState} {id : String}
    {res : Except Err JSVal}
    (h : LoaderInv o s) (ht : TermEntry (s.cache id) res) :
    (loadRun o s sched).cache id = s.cache id ∧
    (loadRun o s sched).fetchCount id = s.fetchCount id ∧
    (loadRun o s sched).pendingCount id = s.pendingCount id := by
  induction sched generalizing s with
  | nil => exact ⟨rfl, rfl, rfl⟩
  | cons a tl ih =>
    have hstep := step_frozen (o := o) (s := s) a h ht
    have ht' : TermEntry ((loadStep o s a).cache id) res := by
      rw [hstep.1]
      exact ht
    have hrest := ih (inv_step o s a h) ht'
    exact ⟨hrest.1.trans hstep.1, hrest.2.1.trans hstep.2.1, hrest.2.2.trans hstep.2.2⟩

/-- A settled task for `id` means the identity is in the settled phase. -/
theorem inv_finished {o : Options} {s : MState} (h : LoaderInv o s) {k : Nat} {id : String}
    {res : Except Err JSVal} (hf : s.tasks k = .finished id res) : Phase3 o s id := by
  rcases h id with hP | hP | hP
  · exact absurd hf ((hP.2.2.2 k).2.2 res)
  · rcases hP with ⟨h1, h2, kk, r, hrid, hstage, hfree⟩
    by_cases hkk : k = kk
    · subst hkk
      rw [hf] at hstage
      rcases hstage with ⟨hx, _⟩ | ⟨hx, _⟩ | ⟨_, hx, _⟩ | ⟨_, hx, _⟩ <;>
        exact TaskSt.noConfusion hx
    · exact absurd hf ((hfree k hkk).2 res)
  · exact hP

/-- The invariant bounds the number of `Loading` installations by one. -/
theorem inv_pendingCount_le {o : Options} {s : MState} (h : LoaderInv o s) (id : String) :
    s.pendingCount id ≤ 1 := by
  rcases h id with hP | hP | hP
  · rw [hP.2.2.1]
    omega
  · rw [hP.2.1]
  · rcases hP with ⟨res, _, hpc, _⟩
    rw [hpc]

/-!
Claim theorems.
-/

/-- C1: Single-flight.  For any number of load requests and any cooperative
schedule, if two requests settled for the same module identity they received
the identical outcome, and (when no `loadModule` callback can short-circuit
the body) the content fetch for that identity ran exactly once: the `Loading`
entry installed synchronously before the first suspension point makes every
concurrent request attach to the same load body. -/
theorem loadModuleInternal_single_flight
    (o : Options) (cs : List PathContext) (sched : List Nat) (id : String)
    (k k' : Nat) (res res' : Except Err JSVal)
    (hlm : o.loadModule = none)
    (hfin : (loadRun o (initState cs) sched).tasks k = .finished id res)
    (hfin' : (loadRun o (initState cs) sched).tasks k' = .finished id res') :
    res = res' ∧ (loadRun o (initState cs) sched).fetchCount id = 1 ∧
      (loadRun o (initState cs) sched).pendingCount id = 1 := by
  have hinv := inv_run sched (inv_init o cs)
  rcases inv_finished hinv hfin with ⟨res0, hterm, hpc, hfc, hfcn, hown, hfinu⟩
  exact ⟨(hfinu k res hfin).trans (hfinu k' res' hfin').symm, hfcn hlm, hpc⟩

/-- A concrete loader configuration: every relative path resolves to itself,
content is the string "code" with tag ".js", no `loadModule` callback, and a
caller-supplied handler that produces the value `7`. -/
def oA : Options :=
  ⟨fun c => ⟨c.relPath, c.relPath, .str "code", ".js"⟩,
   none,
   some (fun _ _ _ => some (.num 7)),
   fun _ _ => .num 1,
   fun _ _ _ => .num 2⟩

/-- Witness for C1: two interleaved requests for the identity "m" both settle
with the value `7` and the fetch counter of "m" is exactly 1. -/
theorem loadModuleInternal_single_flight_witness :
    (Except.ok (JSVal.num 7) : Except Err JSVal) = .ok (.num 7) ∧
    (loadRun oA (initState [⟨"r","m"⟩, ⟨"r","m"⟩]) [0,1,0,0,1]).fetchCount "m" = 1 ∧
    (loadRun oA (initState [⟨"r","m"⟩, ⟨"r","m"⟩]) [0,1,0,0,1]).pendingCount "m" = 1 :=
  loadModuleInternal_single_flight oA [⟨"r","m"⟩, ⟨"r","m"⟩] [0,1,0,0,1] "m" 0 1
    (.ok (.num 7)) (.ok (.num 7)) rfl (by decide) (by decide)

/-- C9: Cache-entry immutability.  In any reachable state of a session, at
most one `Loading` entry was ever installed per identity, and once the entry
of an identity is settled (Resolved value or retained error), no further
schedule of loader operations replaces or mutates it. -/
theorem moduleCache_entry_immutable
    (o : Options) (cs : List PathContext) (sched sched' : List Nat) (id : String)
    (res : Except Err JSVal)
    (hterm : TermEntry ((loadRun o (initState cs) sched).cache id) res) :
    (loadRun o (initState cs) sched).pendingCount id ≤ 1 ∧
    (loadRun o (loadRun o (initState cs) sched) sched').cache id =
      (loadRun o (initState cs) sched).cache id := by
  have hinv := inv_run sched (inv_init o cs)
  exact ⟨inv_pendingCount_le hinv id, (run_frozen sched' hinv hterm).1⟩

/-- Witness for C9: the settled entry of "m" survives five more scheduler
steps unchanged, and only one `Loading` was ever installed. -/
theorem moduleCache_entry_immutable_witness :
    (loadRun oA (initState [⟨"r","m"⟩, ⟨"r","m"⟩]) [0,1,0,0,1]).pendingCount "m" ≤ 1 ∧
    (loadRun oA (loadRun oA (initState [⟨"r","m"⟩, ⟨"r","m"⟩]) [0,1,0,0,1])
        [0,1,2,0,1]).cache "m" =
      (loadRun oA (initState [⟨"r","m"⟩, ⟨"r","m"⟩]) [0,1,0,0,1]).cache "m" :=
  moduleCache_entry_immutable oA [⟨"r","m"⟩, ⟨"r","m"⟩] [0,1,0,0,1] [0,1,2,0,1] "m"
    (.ok (.num 7)) (Or.inl ⟨.num 7, by decide, rfl⟩)

/-- A concrete loader configuration whose fetched content is not a string, so
every load fails with the invalid-content `TypeError`. -/
def oFail : Options :=
  ⟨fun c => ⟨c.relPath, c.relPath, .nonStr "buffer", ".js"⟩,
   none,
   none,
   fun _ _ => .num 1,
   fun _ _ _ => .num 2⟩

/-- C2 counterexample: the claim asserts a subsequent load for a failed
identity runs "without invoking resolution", but `loadModuleInternal` calls
`options.getResource` on every request before consulting the cache (line
249): after the load of "m" failed, a second request still re-raises the
retained error and fetches nothing, yet the resolution counter reaches 2. -/
theorem failure_memoization_counterexample :
    (loadRun oFail (initState [⟨"r","m"⟩, ⟨"r","m"⟩]) [0,0,1,1]).tasks 1 =
      .finished "m" (.error (.invalidContent "m" "buffer")) ∧
    (loadRun oFail (initState [⟨"r","m"⟩, ⟨"r","m"⟩]) [0,0,1,1]).fetchCount "m" = 1 ∧
    (loadRun oFail (initState [⟨"r","m"⟩, ⟨"r","m"⟩]) [0,0,1,1]).resolveCount "m" = 2 := by
  decide

/-- C2 (amended): after a load for an identity failed, a subsequent request
for the same identity re-raises the retained error (two scheduler steps:
attach, then deliver), the fetch counter stays at 1 — no content fetch or
dispatch happens again — and no schedule ever changes the failed entry or the
fetch counter.  (Resolution via `getResource` does run again on each request.) -/
theorem failure_memoization
    (o : Options) (cs : List PathContext) (sched sched' : List Nat) (id : String)
    (e : Err) (k : Nat) (c : PathContext)
    (hlm : o.loadModule = none)
    (hfail : (loadRun o (initState cs) sched).cache id =
      some (.pending (some (.error e))))
    (htask : (loadRun o (initState cs) sched).tasks k = .start c)
    (hid : (o.getResource c).id = id) :
    (loadRun o (loadRun o (initState cs) sched) [k, k]).tasks k =
      .finished id (.error e) ∧
    (loadRun o (initState cs) sched).fetchCount id = 1 ∧
    (loadRun o (loadRun o (initState cs) sched) sched').fetchCount id =
      (loadRun o (initState cs) sched).fetchCount id ∧
    (loadRun o (loadRun o (initState cs) sched) sched').cache id =
      (loadRun o (initState cs) sched).cache id := by
  have hinv := inv_run sched (inv_init o cs)
  have hterm : TermEntry ((loadRun o (initState cs) sched).cache id) (.error e) :=
    Or.inr hfail
  have hstep1 := loadStep_start_pending (o := o) (s := loadRun o (initState cs) sched)
    (i := k) htask (by rw [hid]; exact hfail)
  rw [hid] at hstep1
  have hs1tasks : (loadStep o (loadRun o (initState cs) sched) k).tasks k =
      .awaiting id := by
    rw [hstep1]
    exact setTask_self _ _ _
  have hs1cache : (loadStep o (loadRun o (initState cs) sched) k).cache id =
      some (.pending (some (.error e))) := by
    rw [hstep1]
    exact hfail
  have hstep2 := loadStep_awaiting_settled (o := o)
    (s := loadStep o (loadRun o (initState cs) sched) k) (i := k) hs1tasks hs1cache
  refine ⟨?_, ?_, (run_frozen sched' hinv hterm).2.1, (run_frozen sched' hinv hterm).1⟩
  · show (loadStep o (loadStep o (loadRun o (initState cs) sched) k) k).tasks k =
      .finished id (.error e)
    rw [hstep2]
    simp only [finishTask, setTask_self]
  · rcases phase3_of_term (hinv id) hterm with ⟨res0, _, _, _, hfcn, _, _⟩
    exact hfcn hlm

/-- Witness for C2: the failed-entry scenario of the counterexample satisfies
the amended claim's hypotheses. -/
theorem failure_memoization_witness :
    (loadRun oFail (loadRun oFail (initState [⟨"r","m"⟩, ⟨"r","m"⟩]) [0,0]) [1, 1]).tasks 1 =
      .finished "m" (.error (.invalidContent "m" "buffer")) ∧
    (loadRun oFail (initState [⟨"r","m"⟩, ⟨"r","m"⟩]) [0,0]).fetchCount "m" = 1 ∧
    (loadRun oFail (loadRun oFail (initState [⟨"r","m"⟩, ⟨"r","m"⟩]) [0,0])
        [1,0,1]).fetchCount "m" =
      (loadRun oFail (initState [⟨"r","m"⟩, ⟨"r","m"⟩]) [0,0]).fetchCount "m" ∧
    (loadRun oFail (loadRun oFail (initState [⟨"r","m"⟩, ⟨"r","m"⟩]) [0,0])
        [1,0,1]).cache "m" =
      (loadRun oFail (initState [⟨"r","m"⟩, ⟨"r","m"⟩]) [0,0]).cache "m" :=
  failure_memoization oFail [⟨"r","m"⟩, ⟨"r","m"⟩] [0,0] [1,0,1] "m"
    (.invalidContent "m" "buffer") 1 ⟨"r","m"⟩ rfl (by decide) (by decide) rfl


theorem setTask_at01 (ts : Nat → TaskSt) (t : TaskSt) : setTask ts 0 t 1 = ts 1 :=
  if_neg one_ne_zero

theorem setTask_at10 (ts : Nat → TaskSt) (t : TaskSt) : setTask ts 1 t 0 = ts 0 :=
  if_neg zero_ne_one

/-- C8: `null` is a legal export.  If the caller-supplied handler produces the
value `null` for a resource, the load succeeds with `null` (only `undefined`
means "not handled"), `null` is memoized as the Resolved entry of the
identity, and a subsequent request for the same identity is answered from the
cache with `null`, without a second fetch. -/
theorem null_export_legal
    (o : Options) (c c' : PathContext) (hfun : String → String → String → Option JSVal)
    (src : String)
    (hlm : o.loadModule = none)
    (hh : o.handleModule = some hfun)
    (hcontent : (o.getResource c).content = .str src)
    (hhandle : hfun (o.getResource c).extname src (o.getResource c).path = some .null)
    (hid : (o.getResource c').id = (o.getResource c).id) :
    (loadRun o (initState [c, c']) [0,0,0,1]).tasks 0 =
      .finished (o.getResource c).id (.ok .null) ∧
    (loadRun o (initState [c, c']) [0,0,0,1]).tasks 1 =
      .finished (o.getResource c).id (.ok .null) ∧
    (loadRun o (initState [c, c']) [0,0,0,1]).cache (o.getResource c).id =
      some (.done .null) ∧
    (loadRun o (initState [c, c']) [0,0,0,1]).fetchCount (o.getResource c).id = 1 := by
  have hs0t0 : (initState [c, c']).tasks 0 = .start c := rfl
  have hs0c : (initState [c, c']).cache (o.getResource c).id = none := rfl
  have h1 := loadStep_start_none_none (o := o) hs0t0 hs0c hlm
  have ht0a : (loadStep o (initState [c, c']) 0).tasks 0 =
      .sGetContent (o.getResource c) := by
    rw [h1]
    simp only [setTask_self]
  have ht1a : (loadStep o (initState [c, c']) 0).tasks 1 = .start c' := by
    rw [h1]
    simp only [setTask_at01]
    rfl
  have hfa : (loadStep o (initState [c, c']) 0).fetchCount (o.getResource c).id = 1 := by
    rw [h1]
    simp only [bump_self]
    rfl
  have h2 := loadStep_sGetContent_str_handle (o := o) ht0a hcontent hh
  have ht0b : (loadStep o (loadStep o (initState [c, c']) 0) 0).tasks 0 =
      .sHandle (o.getResource c) src := by
    rw [h2]
    simp only [setTask_self]
  have ht1b : (loadStep o (loadStep o (initState [c, c']) 0) 0).tasks 1 = .start c' := by
    rw [h2]
    simp only [setTask_at01]
    exact ht1a
  have hfb : (loadStep o (loadStep o (initState [c, c']) 0) 0).fetchCount
      (o.getResource c).id = 1 := by
    rw [h2]
    exact hfa
  have hcb : (loadStep o (loadStep o (initState [c, c']) 0) 0).cache
      (o.getResource c).id = some (.pending none) := by
    rw [h2, h1]
    simp only [cupd_self]
  have h3 := loadStep_sHandle_some (o := o) ht0b hh hhandle
  have ht0c :
      (loadStep o (loadStep o (loadStep o (initState [c, c']) 0) 0) 0).tasks 0 =
        .finished (o.getResource c).id (.ok .null) := by
    rw [h3]
    simp only [finishOwnerOk, setTask_self]
  have ht1c :
      (loadStep o (loadStep o (loadStep o (initState [c, c']) 0) 0) 0).tasks 1 =
        .start c' := by
    rw [h3]
    simp only [finishOwnerOk, setTask_at01]
    exact ht1b
  have hcc :
      (loadStep o (loadStep o (loadStep o (initState [c, c']) 0) 0) 0).cache
        (o.getResource c).id = some (.done .null) := by
    rw [h3]
    simp only [finishOwnerOk, cupd_self]
  have hcc' :
      (loadStep o (loadStep o (loadStep o (initState [c, c']) 0) 0) 0).cache
        (o.getResource c').id = some (.done .null) := by
    rw [hid]
    exact hcc
  have hfc :
      (loadStep o (loadStep o (loadStep o (initState [c, c']) 0) 0) 0).fetchCount
        (o.getResource c).id = 1 := by
    rw [h3]
    simp only [finishOwnerOk]
    exact hfb
  have h4 := loadStep_start_done (o := o) ht1c hcc'
  refine ⟨?_, ?_, ?_, ?_⟩
  · show (loadStep o (loadStep o (loadStep o (loadStep o (initState [c, c']) 0) 0) 0)
      1).tasks 0 = .finished (o.getResource c).id (.ok .null)
    rw [h4]
    simp only [finishTask, setTask_at10]
    exact ht0c
  · show (loadStep o (loadStep o (loadStep o (loadStep o (initState [c, c']) 0) 0) 0)
      1).tasks 1 = .finished (o.getResource c).id (.ok .null)
    rw [h4]
    simp only [finishTask, setTask_self, hid]
  · show (loadStep o (loadStep o (loadStep o (loadStep o (initState [c, c']) 0) 0) 0)
      1).cache (o.getResource c).id = some (.done .null)
    rw [h4]
    simp only [finishTask]
    exact hcc
  · show (loadStep o (loadStep o (loadStep o (loadStep o (initState [c, c']) 0) 0) 0)
      1).fetchCount (o.getResource c).id = 1
    rw [h4]
    simp only [finishTask]
    exact hfc

/-- A concrete loader configuration whose caller-supplied handler returns the
value `null` for every resource. -/
def oNull : Options :=
  ⟨fun c => ⟨c.relPath, c.relPath, .str "code", ".js"⟩,
   none,
   some (fun _ _ _ => some .null),
   fun _ _ => .num 1,
   fun _ _ _ => .num 2⟩

/-- Witness for C8: both the first and the second request for "m" settle with
the value `null`, the entry is `Resolved null`, and one fetch happened. -/
theorem null_export_legal_witness :
    (loadRun oNull (initState [⟨"r","m"⟩, ⟨"r","m"⟩]) [0,0,0,1]).tasks 0 =
      .finished "m" (.ok .null) ∧
    (loadRun oNull (initState [⟨"r","m"⟩, ⟨"r","m"⟩]) [0,0,0,1]).tasks 1 =
      .finished "m" (.ok .null) ∧
    (loadRun oNull (initState [⟨"r","m"⟩, ⟨"r","m"⟩]) [0,0,0,1]).cache "m" =
      some (.done .null) ∧
    (loadRun oNull (initState [⟨"r","m"⟩, ⟨"r","m"⟩]) [0,0,0,1]).fetchCount "m" = 1 :=
  null_export_legal oNull ⟨"r","m"⟩ ⟨"r","m"⟩ (fun _ _ _ => some .null) "code"
    rfl rfl rfl rfl rfl

/-- C10: `loadModule` short-circuit.  For a load of an identity with no
existing cache entry, when the options carry a `loadModule` callback that
returns a value other than `undefined` for the identity, that value is cached
as the Resolved entry and returned, and neither the content fetch nor any
handler dispatch (caller-supplied or built-in) runs for that load. -/
theorem loadModule_short_circuit
    (o : Options) (c : PathContext) (f : String → Option JSVal) (v : JSVal)
    (hlm : o.loadModule = some f)
    (hf : f (o.getResource c).id = some v) :
    (loadRun o (initState [c]) [0,0]).tasks 0 =
      .finished (o.getResource c).id (.ok v) ∧
    (loadRun o (initState [c]) [0,0]).cache (o.getResource c).id = some (.done v) ∧
    (loadRun o (initState [c]) [0,0]).fetchCount (o.getResource c).id = 0 ∧
    (loadRun o (initState [c]) [0,0]).handleCount (o.getResource c).id = 0 ∧
    (loadRun o (initState [c]) [0,0]).defaultCount (o.getResource c).id = 0 := by
  have hs0t0 : (initState [c]).tasks 0 = .start c := rfl
  have hs0c : (initState [c]).cache (o.getResource c).id = none := rfl
  have h1 := loadStep_start_none_some (o := o) hs0t0 hs0c hlm
  have ht0a : (loadStep o (initState [c]) 0).tasks 0 = .sLoadMod (o.getResource c) := by
    rw [h1]
    simp only [setTask_self]
  have hfa : (loadStep o (initState [c]) 0).fetchCount (o.getResource c).id = 0 := by
    rw [h1]
    rfl
  have hha : (loadStep o (initState [c]) 0).handleCount (o.getResource c).id = 0 := by
    rw [h1]
    rfl
  have hda : (loadStep o (initState [c]) 0).defaultCount (o.getResource c).id = 0 := by
    rw [h1]
    rfl
  have h2 := loadStep_sLoadMod_hit (o := o) ht0a hlm hf
  refine ⟨?_, ?_, ?_, ?_, ?_⟩
  · show (loadStep o (loadStep o (initState [c]) 0) 0).tasks 0 =
      .finished (o.getResource c).id (.ok v)
    rw [h2]
    simp only [finishOwnerOk, setTask_self]
  · show (loadStep o (loadStep o (initState [c]) 0) 0).cache (o.getResource c).id =
      some (.done v)
    rw [h2]
    simp only [finishOwnerOk, cupd_self]
  · show (loadStep o (loadStep o (initState [c]) 0) 0).fetchCount (o.getResource c).id = 0
    rw [h2]
    simp only [finishOwnerOk]
    exact hfa
  · show (loadStep o (loadStep o (initState [c]) 0) 0).handleCount (o.getResource c).id = 0
    rw [h2]
    simp only [finishOwnerOk]
    exact hha
  · show (loadStep o (loadStep o (initState [c]) 0) 0).defaultCount (o.getResource c).id = 0
    rw [h2]
    simp only [finishOwnerOk]
    exact hda

/-- A concrete loader configuration with a `loadModule` callback that
supplies the value `42` for every identity, next to a fetchable resource and
a caller handler that are never reached. -/
def oShort : Options :=
  ⟨fun c => ⟨c.relPath, c.relPath, .str "code", ".js"⟩,
   some (fun _ => some (.num 42)),
   some (fun _ _ _ => some (.num 7)),
   fun _ _ => .num 1,
   fun _ _ _ => .num 2⟩

/-- Witness for C10: the callback's value `42` is returned and cached for
"m"; fetch, caller handler, and built-in handler all ran zero times. -/
theorem loadModule_short_circuit_witness :
    (loadRun oShort (initState [⟨"r","m"⟩]) [0,0]).tasks 0 =
      .finished "m" (.ok (.num 42)) ∧
    (loadRun oShort (initState [⟨"r","m"⟩]) [0,0]).cache "m" = some (.done (.num 42)) ∧
    (loadRun oShort (initState [⟨"r","m"⟩]) [0,0]).fetchCount "m" = 0 ∧
    (loadRun oShort (initState [⟨"r","m"⟩]) [0,0]).handleCount "m" = 0 ∧
    (loadRun oShort (initState [⟨"r","m"⟩]) [0,0]).defaultCount "m" = 0 :=
  loadModule_short_circuit oShort ⟨"r","m"⟩ (fun _ => some (.num 42)) (.num 42) rfl rfl

/-- C3 counterexample: `hash` combines the key parts by plain concatenation
(`hashInstance.append(val)`), so the distinct key lists `["v","ab","c"]` and
`["v","a","bc"]` — differing in both their content part and their path part —
produce the same cache key even for an injective digest (here the identity
function): the collision is caused by how the parts are combined, not by the
digest. -/
theorem hash_key_counterexample :
    hash id ["v", "ab", "c"] = hash id ["v", "a", "bc"] ∧
    (["v", "ab", "c"] : List String) ≠ ["v", "a", "bc"] := by
  constructor
  · decide
  · decide

/-- C3 (amended): equal key-part lists produce the same key, and more
generally the key depends only on the separator-less concatenation of the
parts: any two lists whose concatenations agree collide for every digest
function, while a change that alters the concatenation changes the digest
input. -/
theorem hash_key_sensitivity
    (digest : String → String) (l1 l2 : List String)
    (hconcat : l1.foldl (fun acc val => acc ++ (if val = "" then "" else val)) "" =
               l2.foldl (fun acc val => acc ++ (if val = "" then "" else val)) "") :
    hash digest l1 = hash digest l2 :=
  congrArg (fun s => (digest s).take 8) hconcat

/-- Witness for C3 (amended): splitting the same character stream differently
between the version part and the source part yields the same key. -/
theorem hash_key_sensitivity_witness :
    hash id ["engine1", "sourcetext", "/a/b.js"] =
      hash id ["engine1source", "text", "/a/b.js"] :=
  hash_key_sensitivity id ["engine1", "sourcetext", "/a/b.js"]
    ["engine1source", "text", "/a/b.js"] (by decide)

/-- C4: `withCache` behavior.  With no configured store the factory always
runs and nothing is stored (and no error occurs); on a (truthy) store hit the
decoded cached string is returned and the factory is not invoked; on a miss
the factory runs and its encoded result is stored under the hashed key
exactly when `preventCache` was not called; hence a second call with the same
inputs after a prevented call invokes the factory again. -/
theorem withCache_getOrCompute {V : Type}
    (digest : String → String) (stringify : V → String) (parse : String → V)
    (st : List (String × String)) (key : List String) (v : V) (p : Bool) :
    (withCache digest stringify parse none key (v, p) = ⟨v, none, true⟩) ∧
    (∀ s, storeGet st (hash digest key) = some s → s ≠ "" →
      withCache digest stringify parse (some st) key (v, p) = ⟨parse s, some st, false⟩) ∧
    (storeGet st (hash digest key) = none →
      withCache digest stringify parse (some st) key (v, p) =
        ⟨v, some (if p then st else storeSet st (hash digest key) (stringify v)), true⟩) ∧
    (storeGet st (hash digest key) = none →
      ∀ (w : V) (q : Bool),
        (withCache digest stringify parse
          (withCache digest stringify parse (some st) key (v, true)).store
          key (w, q)).invoked = true) := by
  refine ⟨rfl, fun s hget hs => ?_, fun hget => ?_, fun hget w q => ?_⟩
  · simp only [withCache, hget]
    rw [if_pos hs]
  · simp only [withCache, hget]
  · have hstore : (withCache digest stringify parse (some st) key (v, true)).store =
        some st := by
      simp only [withCache, hget, if_true]
    rw [hstore]
    simp only [withCache, hget]

/-- Witness for C4: a hit returns the decoded value without invoking the
factory; a miss stores the encoded result; after a prevented miss, the second
call invokes the factory again. -/
theorem withCache_getOrCompute_witness :
    (withCache id toString String.length (some [("akey", "7")]) ["akey"] (5, false) =
      ⟨1, some [("akey", "7")], false⟩) ∧
    (withCache id toString String.length (some []) ["akey"] (5, false) =
      ⟨5, some (if false then [] else storeSet [] (hash id ["akey"]) (toString 5)), true⟩) ∧
    (withCache id toString String.length
      (withCache id toString String.length (some []) ["akey"] (5, true)).store
      ["akey"] (6, false)).invoked = true := by
  refine ⟨?_, ?_, ?_⟩
  · exact (withCache_getOrCompute id toString String.length [("akey", "7")] ["akey"]
      5 false).2.1 "7" (by decide) (by decide)
  · exact (withCache_getOrCompute id toString String.length [] ["akey"] 5 false).2.2.1
      (by decide)
  · exact (withCache_getOrCompute id toString String.length [] ["akey"] 5 true).2.2.2
      (by decide) 6 false

/-- C5 counterexample: with a Pending (`Loading`) entry for the resolved
identity "m", the `require` closure returns the raw `Loading` slot instead of
throwing: the claim that `require` fails with "not found" whenever the
identity has no Resolved entry — including a Pending one — is false on the
code, which throws only when the identity has no entry at all. -/
theorem require_pending_counterexample :
    requireModule oA (fun i => if i = "m" then some (.pending none) else none) "r" "m" =
      .ok (.pending none) := by
  decide

/-- C5 (amended): `require` returns the raw cache slot — the exported value of
a Resolved entry, but equally the `Loading` placeholder of a Pending or
Failed entry — whenever the resolved identity has any entry, and throws the
"not found" error (whose message names the identity) only when the identity
has no entry at all. -/
theorem require_lookup
    (o : Options) (mc : String → Option Entry) (refPath relPath : String) :
    (∀ en, mc (o.getResource ⟨refPath, relPath⟩).id = some en →
      requireModule o mc refPath relPath = .ok en) ∧
    (mc (o.getResource ⟨refPath, relPath⟩).id = none →
      requireModule o mc refPath relPath =
        .error (.notFound (o.getResource ⟨refPath, relPath⟩).id)) ∧
    (Err.notFound (o.getResource ⟨refPath, relPath⟩).id).message =
      (o.getResource ⟨refPath, relPath⟩).id ++ " not found in moduleCache" := by
  refine ⟨fun en hen => ?_, fun hnone => ?_, rfl⟩
  · simp only [requireModule, hen]
  · simp only [requireModule, hnone]

/-- Witness for C5 (amended): a Resolved entry is returned as the value; an
absent entry throws "not found". -/
theorem require_lookup_witness :
    requireModule oA (fun i => if i = "m" then some (.done (.num 3)) else none) "r" "m" =
      .ok (.done (.num 3)) ∧
    requireModule oA (fun _ => none) "r" "m" = .error (.notFound "m") := by
  constructor
  · exact (require_lookup oA (fun i => if i = "m" then some (.done (.num 3)) else none)
      "r" "m").1 (.done (.num 3)) (by decide)
  · exact (require_lookup oA (fun _ => none) "r" "m").2.1 rfl

/-- C6: extension dispatch policy.  A configured caller-supplied handler is
consulted first and its non-`undefined` result wins; an `undefined`
(not-handled) result falls through to the built-in dispatch, which sends
`.vue` to the component compiler and `.js`/`.mjs` to the script pipeline; a
type tag matched by no handler fails the load with the unsupported-type
`TypeError` whose message names both the tag and the path. -/
theorem extension_dispatch
    (o : Options) (extname content path : String) :
    (∀ hfun v, o.handleModule = some hfun → hfun extname content path = some v →
      dispatchModule o extname content path = .ok v) ∧
    (∀ hfun, o.handleModule = some hfun → hfun extname content path = none →
      dispatchModule o extname content path =
        (match defaultHandleModule o extname content path with
         | some v => .ok v
         | none => .error (.unsupported extname path))) ∧
    defaultHandleModule o ".vue" content path = some (o.createSFCModule content path) ∧
    defaultHandleModule o ".js" content path = some (o.createJSModule content false path) ∧
    defaultHandleModule o ".mjs" content path = some (o.createJSModule content true path) ∧
    (extname ≠ ".vue" → extname ≠ ".js" → extname ≠ ".mjs" →
      (o.handleModule = none ∨
        ∃ hfun, o.handleModule = some hfun ∧ hfun extname content path = none) →
      dispatchModule o extname content path = .error (.unsupported extname path)) ∧
    (Err.unsupported extname path).message =
      "Unable to handle " ++ extname ++ " files (" ++ path ++ ")" := by
  refine ⟨fun hfun v hh hv => ?_, fun hfun hh hv => ?_, ?_, ?_, ?_,
    fun h1 h2 h3 h4 => ?_, rfl⟩
  · simp only [dispatchModule, hh, hv]
  · simp only [dispatchModule, hh, hv]
  · unfold defaultHandleModule
    rw [if_pos rfl]
  · unfold defaultHandleModule
    rw [if_neg (by decide), if_pos rfl]
  · unfold defaultHandleModule
    rw [if_neg (by decide), if_neg (by decide), if_pos rfl]
  · have hd : defaultHandleModule o extname content path = none := by
      unfold defaultHandleModule
      rw [if_neg h1, if_neg h2, if_neg h3]
    rcases h4 with hnone | ⟨hfun, hh, hv⟩
    · simp only [dispatchModule, hnone, hd]
    · simp only [dispatchModule, hh, hv, hd]

/-- Witness for C6: a configured handler wins with its value `7`; with no
handler and an unknown tag ".xyz" the dispatch fails with the
unsupported-type error. -/
theorem extension_dispatch_witness :
    dispatchModule oA ".xyz" "code" "p" = .ok (.num 7) ∧
    dispatchModule oFail ".xyz" "code" "p" = .error (.unsupported ".xyz" "p") :=
  ⟨(extension_dispatch oA ".xyz" "code" "p").1 (fun _ _ _ => some (.num 7)) (.num 7)
      rfl rfl,
   (extension_dispatch oFail ".xyz" "code" "p").2.2.2.2.2.1 (by decide) (by decide)
      (by decide) (Or.inl rfl)⟩

/-- `loadDeps(refPath, deps, options)` (lines 351-354): spawn one
`loadModuleInternal` task per declared dependency — all created before any of
them is awaited — in a shared session; `Promise.all` over those tasks is
`loadDepsOutcome`. -/
def loadDeps (refPath : String) (deps : List String) : MState :=
  initState (deps.map (fun relPath => ⟨refPath, relPath⟩))

/-- No segment of the modelled loader performs a log call. -/
theorem loadStep_logCalls (o : Options) (s : MState) (i : Nat) :
    (loadStep o s i).logCalls = s.logCalls := by
  unfold loadStep
  dsimp only
  repeat' split
  all_goals rfl

/-- No schedule of the modelled loader performs a log call. -/
theorem loadRun_logCalls (o : Options) (sched : List Nat) (s : MState) :
    (loadRun o s sched).logCalls = s.logCalls := by
  induction sched generalizing s with
  | nil => rfl
  | cons a tl ih => exact (ih (loadStep o s a)).trans (loadStep_logCalls o s a)

theorem findSome?_mem {α β : Type} (f : α → Option β) (l : List α) (b : β)
    (h : l.findSome? f = some b) : ∃ a, a ∈ l ∧ f a = some b := by
  induction l with
  | nil => exact Option.noConfusion h
  | cons x xs ih =>
    rw [List.findSome?_cons] at h
    cases hf : f x with
    | some b' =>
      rw [hf] at h
      injection h with h1
      exact ⟨x, List.mem_cons_self x xs, by rw [hf, h1]⟩
    | none =>
      rw [hf] at h
      rcases ih h with ⟨a, ha, hfa⟩
      exact ⟨a, List.mem_cons_of_mem x ha, hfa⟩

/-- C7 counterexample: two dependencies, both failing.  The aggregate
`Promise.all` outcome is the temporally first failure and the second failure
is also retained in the module cache, but the log stays empty — `loadDeps`
and `loadModuleInternal` contain no log invocation — contradicting the
claim's "the other failures ... are at minimum logged". -/
theorem loadDeps_counterexample :
    loadDepsOutcome (loadRun oFail (loadDeps "r" ["a", "b"]) [0,0,1,1]) 2 =
      some (.error (.invalidContent "a" "buffer")) ∧
    (loadRun oFail (loadDeps "r" ["a", "b"]) [0,0,1,1]).tasks 1 =
      .finished "b" (.error (.invalidContent "b" "buffer")) ∧
    (loadRun oFail (loadDeps "r" ["a", "b"]) [0,0,1,1]).logCalls = [] := by
  decide

/-- C7 (amended): `loadDeps` starts one load per dependency in a shared
session; when the aggregate `Promise.all` outcome is a failure, that failure
is the temporally first one to settle among the dependency tasks (and is one
of their results); the other failures are not logged — the loader performs no
logging at all — but dependencies that already resolved are not rolled back:
their Resolved entries survive any further schedule. -/
theorem loadDeps_partial_failure
    (o : Options) (refPath : String) (deps : List String) (sched sched' : List Nat)
    (n : Nat) (e : Err) (id : String) (v : JSVal)
    (hagg : loadDepsOutcome (loadRun o (loadDeps refPath deps) sched) n =
      some (.error e))
    (hdone : (loadRun o (loadDeps refPath deps) sched).cache id = some (.done v)) :
    (loadRun o (loadDeps refPath deps) sched).logCalls = [] ∧
    (∃ k, k < n ∧ ((k, (Except.error e : Except Err JSVal)) ∈
      (loadRun o (loadDeps refPath deps) sched).finishLog)) ∧
    (loadRun o (loadRun o (loadDeps refPath deps) sched) sched').cache id =
      some (.done v) := by
  have hinv : LoaderInv o (loadRun o (loadDeps refPath deps) sched) :=
    inv_run sched (inv_init o (deps.map (fun relPath => ⟨refPath, relPath⟩)))
  have hterm : TermEntry ((loadRun o (loadDeps refPath deps) sched).cache id) (.ok v) :=
    Or.inl ⟨v, hdone, rfl⟩
  refine ⟨?_, ?_, ?_⟩
  · rw [loadRun_logCalls o sched (loadDeps refPath deps)]
    rfl
  · unfold loadDepsOutcome at hagg
    split at hagg
    · rename_i e' hfind
      injection hagg with h1
      injection h1 with h2
      subst h2
      rcases findSome?_mem _ _ _ hfind with ⟨a, ha, hfa⟩
      by_cases hlt : a.1 < n
      · rw [if_pos hlt] at hfa
        cases ha2 : a.2 with
        | ok w =>
          rw [ha2] at hfa
          exact Option.noConfusion hfa
        | error err =>
          rw [ha2] at hfa
          injection hfa with h3
          have hae : (a.1, (Except.error e' : Except Err JSVal)) = a := by
            have : (a.1, (Except.error e' : Except Err JSVal)) = (a.1, a.2) := by
              rw [ha2, h3]
            rw [this]
          exact ⟨a.1, hlt, hae ▸ ha⟩
      · rw [if_neg hlt] at hfa
        exact Option.noConfusion hfa
    · rename_i hfind
      split at hagg
      · injection hagg with h1
        exact Except.noConfusion h1
      · exact Option.noConfusion hagg
  · exact (run_frozen sched' hinv hterm).1.trans hdone

/-- A concrete loader configuration in which the dependency "good" fetches
string content and is handled to the value `7`, while every other dependency
fetches non-string content and fails. -/
def oMix : Options :=
  ⟨fun c => ⟨c.relPath, c.relPath,
      (if c.relPath = "good" then Content.str "code" else Content.nonStr "buffer"), ".js"⟩,
   none,
   some (fun _ _ _ => some (.num 7)),
   fun _ _ => .num 1,
   fun _ _ _ => .num 2⟩

/-- Witness for C7 (amended): with dependencies ["good", "bad"], the
aggregate fails with the failure of "bad", nothing is logged, and the
resolved entry of "good" survives further scheduling. -/
theorem loadDeps_partial_failure_witness :
    (loadRun oMix (loadDeps "r" ["good","bad"]) [0,0,0,1,1]).logCalls = [] ∧
    (∃ k, k < 2 ∧
      ((k, (Except.error (Err.invalidContent "bad" "buffer") : Except Err JSVal)) ∈
        (loadRun oMix (loadDeps "r" ["good","bad"]) [0,0,0,1,1]).finishLog)) ∧
    (loadRun oMix (loadRun oMix (loadDeps "r" ["good","bad"]) [0,0,0,1,1])
        [0,1,2]).cache "good" = some (.done (.num 7)) :=
  loadDeps_partial_failure oMix "r" ["good","bad"] [0,0,0,1,1] [0,1,2] 2
    (.invalidContent "bad" "buffer") "good" (.num 7) (by decide) (by decide)
